import Mathlib

/-!
# tinyimage-server: the deduplicating task registry of `main.go`

A shallow embedding of the task registry, the bounded executor, the output
store and the eviction ledger of `src/main.go`, with the theorems that settle
the claims C1 to C10 about them.

Conventions of the embedding

* Go strings are Lean `String`s (sequences of Unicode code points); Go `int`
  is `Int` (only comparisons and `count++` are performed on it, far from the
  64-bit range); byte slices are `List Nat`.
* The three global maps `queue`, `statusMap`, `processed` are total functions
  on `ProcessKey` (`none` / `false` for an absent entry, as a Go map lookup
  returns the zero value and `processed[key]` is only ever tested).
* The output directory is a map from path to content.
* Concurrency is modelled by interleaving: every critical section of the
  source (a `queueMutex` or `deleteLock` section, a channel operation, a file
  system call) is one event of `step`; an execution is a list of events.
-/

namespace TinyImage

/-! ## Library functions used by the source -/

/-- Tables of the Go `unicode` package for code points the source never
mentions: the lower-case mapping beyond ASCII and the white-space property
beyond Latin-1. Go decides the ASCII and Latin-1 ranges by explicit code
(modelled below) and defers to these tables elsewhere. -/
structure UnicodeTables where
  lowerNonAscii : Char → Char
  spaceNonLatin1 : Char → Bool

/-- Go `unicode.ToLower`: ASCII letters are shifted by `'a' - 'A'`, other ASCII
code points are unchanged, the rest is looked up in the case tables. -/
def toLowerRune (u : UnicodeTables) (c : Char) : Char :=
  if c.toNat ≤ 127 then
    if 'A'.toNat ≤ c.toNat ∧ c.toNat ≤ 'Z'.toNat then Char.ofNat (c.toNat + 32) else c
  else u.lowerNonAscii c

/-- Go `unicode.IsSpace`: in Latin-1 the space characters are
`'\t' '\n' '\v' '\f' '\r' ' '`, U+0085 and U+00A0; beyond Latin-1 the
`White_Space` table decides. -/
def isSpaceRune (u : UnicodeTables) (c : Char) : Bool :=
  if c.toNat ≤ 255 then
    decide (c.toNat = 9 ∨ c.toNat = 10 ∨ c.toNat = 11 ∨ c.toNat = 12 ∨ c.toNat = 13
      ∨ c.toNat = 32 ∨ c.toNat = 133 ∨ c.toNat = 160)
  else u.spaceNonLatin1 c

/-- Go `strings.ToLower`. -/
def toLower (u : UnicodeTables) (s : String) : String :=
  String.mk (s.data.map (toLowerRune u))

/-- Go `strings.TrimSpace`: all leading and trailing white space removed. -/
def trimSpace (u : UnicodeTables) (s : String) : String :=
  String.mk (((s.data.dropWhile (isSpaceRune u)).reverse.dropWhile (isSpaceRune u)).reverse)

/-- The character of a decimal digit. -/
def digitChar (d : Nat) : Char := Char.ofNat (48 + d % 10)

/-- Decimal digits of `n`, most significant first, pushed in front of `acc`;
`fuel` bounds the number of digits. -/
def decimalAux : Nat → Nat → List Char → List Char
  | 0, _, acc => acc
  | fuel + 1, n, acc =>
    if n < 10 then digitChar n :: acc
    else decimalAux fuel (n / 10) (digitChar (n % 10) :: acc)

/-- Decimal rendering of a natural number. -/
def decimal (n : Nat) : List Char := decimalAux (n + 1) n []

/-- Value read back from decimal digits, continuing from `a`. -/
def valFrom (a : Nat) (cs : List Char) : Nat :=
  cs.foldl (fun acc c => 10 * acc + (c.toNat - 48)) a

/-- Go `fmt.Sprintf("%d", q)` for an `int`. -/
def fmtInt (q : Int) : String :=
  if q < 0 then String.mk ('-' :: decimal q.natAbs) else String.mk (decimal q.natAbs)

/-- The struct `ProcessKey` (lines 36-40). -/
structure ProcessKey where
  MD5 : String
  Format : String
  Quality : Int
deriving DecidableEq, Repr

/-- Function `isSupportedFormat` (lines 461-463). -/
def isSupportedFormat (f : String) : Bool :=
  f = "webp" || f = "png" || f = "jpg"

/-- Function `normalizeFormat` (lines 465-474). -/
def normalizeFormat (u : UnicodeTables) (f : String) : String :=
  let ff := toLower u (trimSpace u f)
  if ff = "" then "webp"
  else if ff = "jpeg" then "jpg"
  else ff

/-- Function `outputPathForKey` (lines 477-482). -/
def outputPathForKey (key : ProcessKey) : String :=
  if key.Format = "jpg" then "output/" ++ key.MD5 ++ ".jpg_" ++ fmtInt key.Quality
  else "output/" ++ key.MD5 ++ "." ++ key.Format

/-! ## Registry, executor, output store and ledger (`main.go` 43-55) -/

/-- Content of a file or of an image buffer. -/
abbrev Bytes := List Nat

/-- Program points of a conversion goroutine: `processTask` (lines 485-525) and
the goroutine of the socket adapter (lines 330-384), which perform the same
operations on the shared state. -/
inductive PC where
  /-- spawned, not yet past `taskSemaphore <- struct{}{}` (486 / 331) -/
  | waiting
  /-- slot held, before the section writing `"processing"` (489-491 / 334-336) -/
  | acquired
  /-- status written; `ensureOutputDir`, the codec and `os.WriteFile` run here -/
  | processing
  /-- an error was returned, `markFailed` is about to be called -/
  | failing
  /-- after `os.WriteFile` succeeded, `markDone` is about to be called -/
  | written
  /-- after `markDone` (`ok = true`) or `markFailed`; the deferred release is pending -/
  | returning (ok : Bool)
  /-- the deferred `<-taskSemaphore` has run -/
  | exited (ok : Bool)
deriving DecidableEq, Repr

/-- A dispatched conversion job: the arguments of the goroutine and its program point. -/
structure Job where
  key : ProcessKey
  buffer : Bytes
  pc : PC
deriving DecidableEq, Repr

/-- Progress of one socket message between the two `queueMutex` sections of
`WebSocketHandler` (lines 310-326). -/
inductive WsStage where
  /-- after `already := processed[key]` (310-312) -/
  | checked (already : Bool)
  /-- the flag `already` was true but `os.ReadFile` failed (315): falls through to registration -/
  | unreadable
  /-- the stored artifact was sent with status "done" (316-319) -/
  | answered
  /-- after lines 323-330 have run -/
  | registered
deriving DecidableEq, Repr

/-- A socket message being handled. -/
structure WsReq where
  key : ProcessKey
  filename : String
  buffer : Bytes
  stage : WsStage
deriving DecidableEq, Repr

/-- Answers of the ingress adapters and of the download path. -/
inductive Reply where
  /-- upload, 200 "Image already processed for this format/quality" (138-143) -/
  | alreadyProcessed (key : ProcessKey)
  /-- upload, 202 "Your image is queued for processing" (150-155) -/
  | accepted (key : ProcessKey)
  /-- socket, status "done" carrying the stored artifact (316-318) -/
  | wsDone (key : ProcessKey) (file : Bytes)
  /-- socket, status "queued" (328) -/
  | wsQueued (key : ProcessKey)
  /-- download, 404 "File not found" (233) -/
  | notFound (md5 : String)
  /-- download, `c.SendFile(outputPath)` (241) -/
  | sendFile (path : String)
deriving DecidableEq, Repr

/-- The shared state of the process: the global variables of lines 43-55, the
output directory, the goroutines in flight and the answers given so far. -/
structure State where
  queue : ProcessKey → Option String
  statusMap : ProcessKey → Option String
  processed : ProcessKey → Bool
  toDelete : List String
  count : Int
  /-- the value of `len(taskSemaphore)` -/
  semLen : Nat
  /-- the value of `cap(taskSemaphore)` -/
  semCap : Nat
  files : String → Option Bytes
  jobs : List Job
  wsReqs : List WsReq
  replies : List Reply

/-- One entry of a Go map written (or, with `none`, deleted). -/
def setKey {α : Type} (m : ProcessKey → α) (k : ProcessKey) (v : α) : ProcessKey → α :=
  fun k2 => if k2 = k then v else m k2

/-- One path of the output directory written (or, with `none`, removed). -/
def setFile (fs : String → Option Bytes) (p : String) (v : Option Bytes) : String → Option Bytes :=
  fun p2 => if p2 = p then v else fs p2

/-- Capacity of `taskSemaphore` (lines 86-89): `max_concurrent_tasks`, or 3 when
that is not positive. -/
def semaphoreCapacity (maxConcurrentTasks : Int) : Nat :=
  if maxConcurrentTasks ≤ 0 then 3 else maxConcurrentTasks.toNat

/-- State after `main` has created the semaphore: empty maps, empty ledger, the
output directory as found on disk. -/
def init (maxConcurrentTasks : Int) (disk : String → Option Bytes) : State where
  queue := fun _ => none
  statusMap := fun _ => none
  processed := fun _ => false
  toDelete := []
  count := 0
  semLen := 0
  semCap := semaphoreCapacity maxConcurrentTasks
  files := disk
  jobs := []
  wsReqs := []
  replies := []

/-- The registration section `queue[key] = filename; statusMap[key] = "queued"`
(lines 145-146 and 324-325) followed by the `go` statement (157 / 330). -/
def register (s : State) (key : ProcessKey) (filename : String) (buffer : Bytes) : State :=
  { s with
    queue := setKey s.queue key (some filename)
    statusMap := setKey s.statusMap key (some "queued")
    jobs := s.jobs ++ [⟨key, buffer, PC.waiting⟩] }

/-- Function `markFailed` (lines 447-451). -/
def markFailed (s : State) (key : ProcessKey) : State :=
  { s with statusMap := setKey s.statusMap key (some "failed") }

/-- Function `markDone` (lines 453-459). -/
def markDone (s : State) (key : ProcessKey) : State :=
  { s with
    queue := setKey s.queue key none
    statusMap := setKey s.statusMap key (some "done")
    processed := setKey s.processed key true }

/-- The POST /upload handler from the lock on (lines 135-157): one `queueMutex`
section that tests `processed[key]` and registers, then the answer and the
`go processTask`. -/
def uploadSubmit (s : State) (key : ProcessKey) (filename : String) (buffer : Bytes) : State :=
  if s.processed key then
    { s with replies := s.replies ++ [Reply.alreadyProcessed key] }
  else
    let s1 := register s key filename buffer
    { s1 with replies := s1.replies ++ [Reply.accepted key] }

/-- First `queueMutex` section of `WebSocketHandler` (lines 310-312). -/
def wsCheck (s : State) (key : ProcessKey) (filename : String) (buffer : Bytes) : State :=
  { s with wsReqs := s.wsReqs ++ [⟨key, filename, buffer, WsStage.checked (s.processed key)⟩] }

/-- Replace the stage of socket message `r`. -/
def setStage (s : State) (r : Nat) (q : WsReq) (st : WsStage) : State :=
  { s with wsReqs := s.wsReqs.set r { q with stage := st } }

/-- Lines 313-321 of `WebSocketHandler`: when `already` is true the artifact
is read from `outputPathForKey(key)`; if that succeeds it is sent and the
message is finished, otherwise control falls through to registration. -/
def wsRead (s : State) (r : Nat) : State :=
  match s.wsReqs[r]? with
  | some q =>
    if q.stage = WsStage.checked true then
      match s.files (outputPathForKey q.key) with
      | some buf =>
        { setStage s r q WsStage.answered with replies := s.replies ++ [Reply.wsDone q.key buf] }
      | none => setStage s r q WsStage.unreadable
    else s
  | none => s

/-- Second `queueMutex` section of `WebSocketHandler` and the `go` statement
(lines 323-330), reached when `already` was false or the artifact was not
readable. -/
def wsRegister (s : State) (r : Nat) : State :=
  match s.wsReqs[r]? with
  | some q =>
    if q.stage = WsStage.checked false ∨ q.stage = WsStage.unreadable then
      let s1 := register (setStage s r q WsStage.registered) q.key q.filename q.buffer
      { s1 with replies := s1.replies ++ [Reply.wsQueued q.key] }
    else s
  | none => s

/-- Replace the program point of job `j`. -/
def setPC (s : State) (j : Nat) (job : Job) (pc : PC) : State :=
  { s with jobs := s.jobs.set j { job with pc := pc } }

/-- The send `taskSemaphore <- struct{}{}` (486 / 331): possible only while the
channel buffer is not full. -/
def acquire (s : State) (j : Nat) : State :=
  match s.jobs[j]? with
  | some job =>
    if job.pc = PC.waiting ∧ s.semLen < s.semCap then
      { setPC s j job PC.acquired with semLen := s.semLen + 1 }
    else s
  | none => s

/-- The section `statusMap[key] = "processing"` (489-491 / 334-336). -/
def setProcessing (s : State) (j : Nat) : State :=
  match s.jobs[j]? with
  | some job =>
    if job.pc = PC.acquired then
      { setPC s j job PC.processing with statusMap := setKey s.statusMap job.key (some "processing") }
    else s
  | none => s

/-- The job learns that `ensureOutputDir` (493 / 340) or the codec (500-511 /
349-360) returned an error. -/
def jobError (s : State) (j : Nat) : State :=
  match s.jobs[j]? with
  | some job => if job.pc = PC.processing then setPC s j job PC.failing else s
  | none => s

/-- The codec returned `out` and `os.WriteFile(outPath, out, 0644)` succeeded
(517-518 / 367-368). -/
def writeOk (s : State) (j : Nat) (out : Bytes) : State :=
  match s.jobs[j]? with
  | some job =>
    if job.pc = PC.processing then
      { setPC s j job PC.written with files := setFile s.files (outputPathForKey job.key) (some out) }
    else s
  | none => s

/-- The codec succeeded and `os.WriteFile` returned an error (518-521 /
368-372): with `residue = none` the file could not be opened and the directory
is untouched, with `some r` the file was created or truncated and holds `r`. -/
def writeFail (s : State) (j : Nat) (residue : Option Bytes) : State :=
  match s.jobs[j]? with
  | some job =>
    if job.pc = PC.processing then
      match residue with
      | none => setPC s j job PC.failing
      | some r =>
        { setPC s j job PC.failing with files := setFile s.files (outputPathForKey job.key) (some r) }
    else s
  | none => s

/-- The call `markFailed(key)` of a failing job (494, 513, 520 / 341, 362, 370). -/
def jobMarkFailed (s : State) (j : Nat) : State :=
  match s.jobs[j]? with
  | some job =>
    if job.pc = PC.failing then markFailed (setPC s j job (PC.returning false)) job.key else s
  | none => s

/-- The call `markDone(key)` (523 / 375). -/
def jobMarkDone (s : State) (j : Nat) : State :=
  match s.jobs[j]? with
  | some job =>
    if job.pc = PC.written then markDone (setPC s j job (PC.returning true)) job.key else s
  | none => s

/-- The deferred receive `<-taskSemaphore` (487 / 332), run when the job
returns; a receive needs an element in the channel. -/
def release (s : State) (j : Nat) : State :=
  match s.jobs[j]? with
  | some job =>
    match job.pc with
    | PC.returning ok =>
      if 0 < s.semLen then { setPC s j job (PC.exited ok) with semLen := s.semLen - 1 } else s
    | _ => s
  | none => s

/-- Path probed for a jpg artifact of quality `q` (line 214). -/
def jpgPath (md5Str : String) (q : Nat) : String :=
  "output/" ++ md5Str ++ ".jpg_" ++ fmtInt (q : Int)

/-- Body of the loop over `formats` in the download handler (lines 211-226): the
value of `outputPath` after probing format `f`, the empty string when no probe
succeeded. -/
def probeFormat (fs : String → Option Bytes) (md5Str f : String) : String :=
  if f = "jpg" then
    match (List.range' 1 100).find? (fun q => (fs (jpgPath md5Str q)).isSome) with
    | some q => jpgPath md5Str q
    | none => ""
  else
    if (fs ("output/" ++ md5Str ++ "." ++ f)).isSome then "output/" ++ md5Str ++ "." ++ f else ""

/-- The loop over `formats` (lines 210-230), left at the first successful probe. -/
def probeFormats (fs : String → Option Bytes) (md5Str : String) : List String → String
  | [] => ""
  | f :: rest =>
    if probeFormat fs md5Str f ≠ "" then probeFormat fs md5Str f
    else probeFormats fs md5Str rest

/-- The download-by-digest probe (lines 206-230). -/
def resolve (fs : String → Option Bytes) (md5Str : String) : String :=
  probeFormats fs md5Str ["webp", "png", "jpg"]

/-- The `deleteLock` section of the download handler (lines 236-239). -/
def recordServed (s : State) (path : String) : State :=
  { s with toDelete := s.toDelete ++ [path], count := s.count + 1 }

/-- The GET /download/:md5 handler (lines 205-242): the probe, taken as one
action, then the `deleteLock` section when a path was found. -/
def download (s : State) (md5Str : String) : State :=
  if resolve s.files md5Str = "" then
    { s with replies := s.replies ++ [Reply.notFound md5Str] }
  else
    let s1 := recordServed s (resolve s.files md5Str)
    { s1 with replies := s1.replies ++ [Reply.sendFile (resolve s.files md5Str)] }

/-- The loop `for _, path := range toDelete { _ = os.Remove(path) }` (249-251)
on a store that is a map from path to content: a recorded path is absent
afterwards, and removing an absent path changes nothing (the error is ignored). -/
def removeAll (fs : String → Option Bytes) : List String → String → Option Bytes
  | [] => fs
  | p :: ps => removeAll (setFile fs p none) ps

/-- One cycle of the background sweep (lines 247-256). -/
def sweep (s : State) : State :=
  if s.count ≥ 50 then
    { s with files := removeAll s.files s.toDelete, toDelete := [], count := 0 }
  else s

/-- The atomic actions of the process. -/
inductive Event where
  | upload (key : ProcessKey) (filename : String) (buffer : Bytes)
  | wsCheck (key : ProcessKey) (filename : String) (buffer : Bytes)
  | wsRead (r : Nat)
  | wsRegister (r : Nat)
  | acquire (j : Nat)
  | setProcessing (j : Nat)
  | jobError (j : Nat)
  | writeOk (j : Nat) (out : Bytes)
  | writeFail (j : Nat) (residue : Option Bytes)
  | markFailed (j : Nat)
  | markDone (j : Nat)
  | release (j : Nat)
  | download (md5Str : String)
  | sweep

/-- One atomic action; an action that is not enabled leaves the state as it is. -/
def step (s : State) : Event → State
  | Event.upload key filename buffer => uploadSubmit s key filename buffer
  | Event.wsCheck key filename buffer => wsCheck s key filename buffer
  | Event.wsRead r => wsRead s r
  | Event.wsRegister r => wsRegister s r
  | Event.acquire j => acquire s j
  | Event.setProcessing j => setProcessing s j
  | Event.jobError j => jobError s j
  | Event.writeOk j out => writeOk s j out
  | Event.writeFail j residue => writeFail s j residue
  | Event.markFailed j => jobMarkFailed s j
  | Event.markDone j => jobMarkDone s j
  | Event.release j => release s j
  | Event.download md5Str => download s md5Str
  | Event.sweep => sweep s

/-- An execution: the events of a list taken in order. -/
def run (s : State) (es : List Event) : State := es.foldl step s

/-- Whether a program point holds a semaphore slot. -/
def PC.holdsSlot : PC → Bool
  | PC.acquired | PC.processing | PC.failing | PC.written | PC.returning _ => true
  | PC.waiting | PC.exited _ => false

/-- Number of jobs that have acquired a slot and not yet released it. -/
def slotHolders (s : State) : Nat := s.jobs.countP (fun job => job.pc.holdsSlot)

/-! ## Fingerprints built by the ingress adapters -/

/-- Tables that leave every code point beyond ASCII unchanged and know no white
space beyond Latin-1; on ASCII input no table is consulted, so they serve to
evaluate the functions on ASCII strings. -/
def asciiTables : UnicodeTables := ⟨fun c => c, fun _ => false⟩

/-- Lower-case hexadecimal digit. -/
def isLowerHex (c : Char) : Bool :=
  ('0'.toNat ≤ c.toNat && c.toNat ≤ '9'.toNat) || ('a'.toNat ≤ c.toNat && c.toNat ≤ 'f'.toNat)

/-- Well-formed fingerprint: a digest of 32 lower-case hexadecimal digits, a
supported format, and a quality in 1..100 for jpg and 0 otherwise. -/
def validKey (k : ProcessKey) : Bool :=
  k.MD5.data.length = 32 && k.MD5.data.all isLowerHex && isSupportedFormat k.Format &&
    (if k.Format = "jpg" then decide (1 ≤ k.Quality ∧ k.Quality ≤ 100) else decide (k.Quality = 0))

/-- Paths the download probe tries before it reaches the artifact path of `k`:
nothing for webp, the webp path for png, and for jpg of quality `q` the webp
and png paths and the jpg paths of the qualities below `q`. -/
def earlierPaths (k : ProcessKey) : List String :=
  if k.Format = "webp" then []
  else if k.Format = "png" then ["output/" ++ k.MD5 ++ "." ++ "webp"]
  else ["output/" ++ k.MD5 ++ "." ++ "webp", "output/" ++ k.MD5 ++ "." ++ "png"] ++
    (List.range' 1 (k.Quality.toNat - 1)).map (jpgPath k.MD5)

/-! ## Predicates on executions -/

/-- Whether a job has not yet called `markDone` or `markFailed`. -/
def PC.unfinished : PC → Bool
  | PC.waiting | PC.acquired | PC.processing | PC.failing | PC.written => true
  | PC.returning _ | PC.exited _ => false

/-- Whether a job has called `markDone`. -/
def PC.succeeded : PC → Bool
  | PC.returning true | PC.exited true => true
  | _ => false

/-- No job for `k` is between its dispatch and its `markDone` / `markFailed`. -/
def idle (s : State) (k : ProcessKey) : Bool :=
  s.jobs.all (fun job => decide (job.key ≠ k) || !job.pc.unfinished)

/-- Whether event `e`, taken in state `s`, runs the registration section
(lines 145-146 or 324-325) for the fingerprint `k`. -/
def registers (s : State) (k : ProcessKey) : Event → Bool
  | Event.upload key _ _ => decide (key = k) && !s.processed key
  | Event.wsRegister r =>
    match s.wsReqs[r]? with
    | some q =>
      decide (q.key = k) &&
        (decide (q.stage = WsStage.checked false) || decide (q.stage = WsStage.unreadable))
    | none => false
  | _ => false

/-- Whether an event is the second section of the socket adapter. -/
def Event.isWsRegister : Event → Bool
  | Event.wsRegister _ => true
  | _ => false

/-- The status changes of one fingerprint that the lifecycle admits: none at
all, absent or failed to queued, queued to processing, processing to done or
failed, and done to queued when the socket adapter registers again. -/
def allowedChange (e : Event) (old new : Option String) : Bool :=
  decide (old = new) ||
  (decide (old = none) && decide (new = some "queued")) ||
  (decide (old = some "failed") && decide (new = some "queued")) ||
  (decide (old = some "queued") && decide (new = some "processing")) ||
  (decide (old = some "processing") && decide (new = some "done")) ||
  (decide (old = some "processing") && decide (new = some "failed")) ||
  (decide (old = some "done") && decide (new = some "queued") && e.isWsRegister)

/-- Every registration of `k` along the execution happens while no earlier job
for `k` is unfinished. -/
def spaced (k : ProcessKey) : State → List Event → Bool
  | _, [] => true
  | s, e :: es => (!registers s k e || idle s k) && spaced k (step s e) es

/-- The socket handler run from its first section to its end without another
event in between: lines 310-330 for one message. -/
def wsSubmit (s : State) (key : ProcessKey) (filename : String) (buffer : Bytes) : State :=
  run s [Event.wsCheck key filename buffer, Event.wsRead s.wsReqs.length,
    Event.wsRegister s.wsReqs.length]

/-- What one event does to the registry, the semaphore and the job list. -/
inductive Effect (s : State) (e : Event) (t : State) : Prop where
  /-- registry, semaphore and jobs untouched -/
  | silent (hjobs : t.jobs = s.jobs) (hstatus : t.statusMap = s.statusMap)
      (hproc : t.processed = s.processed) (hqueue : t.queue = s.queue)
      (hlen : t.semLen = s.semLen) (hcap : t.semCap = s.semCap)
  /-- a registration followed by the dispatch of a job -/
  | spawn (key : ProcessKey) (filename : String) (buffer : Bytes)
      (hreg : registers s key e = true)
      (hjobs : t.jobs = s.jobs ++ [⟨key, buffer, PC.waiting⟩])
      (hstatus : t.statusMap = setKey s.statusMap key (some "queued"))
      (hqueue : t.queue = setKey s.queue key (some filename))
      (hproc : t.processed = s.processed)
      (hlen : t.semLen = s.semLen) (hcap : t.semCap = s.semCap)
  /-- a job takes a slot -/
  | acquire (j : Nat) (job : Job) (hget : s.jobs[j]? = some job) (hpc : job.pc = PC.waiting)
      (hfree : s.semLen < s.semCap)
      (hjobs : t.jobs = s.jobs.set j { job with pc := PC.acquired })
      (hstatus : t.statusMap = s.statusMap) (hproc : t.processed = s.processed)
      (hqueue : t.queue = s.queue)
      (hlen : t.semLen = s.semLen + 1) (hcap : t.semCap = s.semCap)
  /-- a job writes "processing" -/
  | setProcessing (j : Nat) (job : Job) (hget : s.jobs[j]? = some job) (hpc : job.pc = PC.acquired)
      (hjobs : t.jobs = s.jobs.set j { job with pc := PC.processing })
      (hstatus : t.statusMap = setKey s.statusMap job.key (some "processing"))
      (hproc : t.processed = s.processed) (hqueue : t.queue = s.queue)
      (hlen : t.semLen = s.semLen) (hcap : t.semCap = s.semCap)
  /-- a job leaves the conversion towards `markFailed` or `markDone` -/
  | convert (j : Nat) (job : Job) (pc : PC) (hget : s.jobs[j]? = some job)
      (hpc : job.pc = PC.processing) (hnext : pc = PC.failing ∨ pc = PC.written)
      (hjobs : t.jobs = s.jobs.set j { job with pc := pc })
      (hstatus : t.statusMap = s.statusMap) (hproc : t.processed = s.processed)
      (hqueue : t.queue = s.queue)
      (hlen : t.semLen = s.semLen) (hcap : t.semCap = s.semCap)
  /-- a job calls `markFailed` -/
  | markFailed (j : Nat) (job : Job) (hget : s.jobs[j]? = some job) (hpc : job.pc = PC.failing)
      (hjobs : t.jobs = s.jobs.set j { job with pc := PC.returning false })
      (hstatus : t.statusMap = setKey s.statusMap job.key (some "failed"))
      (hproc : t.processed = s.processed) (hqueue : t.queue = s.queue)
      (hlen : t.semLen = s.semLen) (hcap : t.semCap = s.semCap)
  /-- a job calls `markDone` -/
  | markDone (j : Nat) (job : Job) (hget : s.jobs[j]? = some job) (hpc : job.pc = PC.written)
      (hjobs : t.jobs = s.jobs.set j { job with pc := PC.returning true })
      (hstatus : t.statusMap = setKey s.statusMap job.key (some "done"))
      (hproc : t.processed = setKey s.processed job.key true)
      (hqueue : t.queue = setKey s.queue job.key none)
      (hlen : t.semLen = s.semLen) (hcap : t.semCap = s.semCap)
  /-- a job gives its slot back -/
  | release (j : Nat) (job : Job) (ok : Bool) (hget : s.jobs[j]? = some job)
      (hpc : job.pc = PC.returning ok) (hpos : 0 < s.semLen)
      (hjobs : t.jobs = s.jobs.set j { job with pc := PC.exited ok })
      (hstatus : t.statusMap = s.statusMap) (hproc : t.processed = s.processed)
      (hqueue : t.queue = s.queue)
      (hlen : t.semLen = s.semLen - 1) (hcap : t.semCap = s.semCap)

/-- Fingerprint used in the concrete executions: the digest of the empty input, png. -/
def pngKey : ProcessKey := ⟨"d41d8cd98f00b204e9800998ecf8427e", "png", 0⟩

/-- An execution that converts `pngKey`, serves the artifact 50 times and runs
the sweep, which removes the artifact. -/
def evictionTrace : List Event :=
  [Event.upload pngKey "a.gif" [0], Event.acquire 0, Event.setProcessing 0, Event.writeOk 0 [2],
   Event.markDone 0, Event.release 0] ++
  List.replicate 50 (Event.download "d41d8cd98f00b204e9800998ecf8427e") ++ [Event.sweep]

/-- What `processed` records: a fingerprint is in it exactly when one of its
jobs has called `markDone`. -/
def ProcessedInv (s : State) : Prop :=
  ∀ k, s.processed k = true ↔
    ∃ (i : Nat) (job : Job), s.jobs[i]? = some job ∧ job.key = k ∧ job.pc.succeeded = true

/-- The lifecycle invariant of one fingerprint `k`, kept by executions whose
registrations of `k` are spaced: at most one job for `k` is unfinished, the
status agrees with the program point of that job, and without such a job the
status is absent, "failed" or "done". -/
structure LifecycleInv (k : ProcessKey) (s : State) : Prop where
  unique : ∀ (i1 i2 : Nat) (a b : Job), s.jobs[i1]? = some a → s.jobs[i2]? = some b →
    a.key = k → b.key = k → a.pc.unfinished = true → b.pc.unfinished = true → i1 = i2
  queued : ∀ (i : Nat) (a : Job), s.jobs[i]? = some a → a.key = k →
    (a.pc = PC.waiting ∨ a.pc = PC.acquired) → s.statusMap k = some "queued"
  processing : ∀ (i : Nat) (a : Job), s.jobs[i]? = some a → a.key = k →
    (a.pc = PC.processing ∨ a.pc = PC.failing ∨ a.pc = PC.written) →
    s.statusMap k = some "processing"
  terminal : (∀ (i : Nat) (a : Job), s.jobs[i]? = some a → a.key = k → a.pc.unfinished = false) →
    (s.statusMap k = none ∨ s.statusMap k = some "failed" ∨ s.statusMap k = some "done")
  doneProcessed : s.statusMap k = some "done" → s.processed k = true

/-- An execution in which the first job for `pngKey` fails on a codec error and
a second upload, made after that failure, is converted successfully. -/
def retryTrace : List Event :=
  [Event.upload pngKey "a.gif" [0], Event.acquire 0, Event.setProcessing 0, Event.jobError 0,
   Event.markFailed 0, Event.release 0,
   Event.upload pngKey "a.gif" [0], Event.acquire 1, Event.setProcessing 1, Event.writeOk 1 [2],
   Event.markDone 1, Event.release 1]

end TinyImage

/-! # Theorems -/

set_option maxRecDepth 100000

namespace TinyImage

/-! ## Decimal rendering -/

theorem digitChar_toNat (d : Nat) (h : d < 10) : (digitChar d).toNat - 48 = d := by
  interval_cases d <;> decide

theorem valFrom_decimalAux (fuel : Nat) : ∀ (n : Nat) (acc : List Char), n < fuel →
    valFrom 0 (decimalAux fuel n acc) = valFrom n acc := by
  induction fuel with
  | zero => intro n acc h; omega
  | succ fuel ih =>
    intro n acc h
    unfold decimalAux
    by_cases h10 : n < 10
    · simp only [h10, if_true]
      simp [valFrom, digitChar_toNat n h10]
    · simp only [h10, if_false]
      rw [ih (n / 10) _ (by omega)]
      have hd := digitChar_toNat (n % 10) (Nat.mod_lt _ (by decide))
      simp only [valFrom, List.foldl_cons, hd]
      congr 1
      omega

theorem valFrom_decimal (n : Nat) : valFrom 0 (decimal n) = n := by
  unfold decimal
  rw [valFrom_decimalAux (n + 1) n [] (by omega)]
  rfl

theorem decimal_injective {a b : Nat} (h : decimal a = decimal b) : a = b := by
  have := congrArg (valFrom 0) h
  simpa [valFrom_decimal] using this

theorem fmtInt_injective_nonneg {a b : Int} (ha : 0 ≤ a) (hb : 0 ≤ b)
    (h : fmtInt a = fmtInt b) : a = b := by
  unfold fmtInt at h
  rw [if_neg (by omega), if_neg (by omega)] at h
  have h2 : decimal a.natAbs = decimal b.natAbs := by
    have := congrArg String.data h
    simpa using this
  have := decimal_injective h2
  omega

/-! ## Format normalization (C4) -/

/-- C4, counterexample: the unrecognized format "gif" (already trimmed and
lower-case) is returned unchanged by `normalizeFormat`, not replaced by "webp";
it is then refused by `isSupportedFormat`. -/
theorem normalizeFormat_gif_not_webp :
    toLower asciiTables (trimSpace asciiTables "gif") = "gif" ∧
    isSupportedFormat "gif" = false ∧
    normalizeFormat asciiTables "gif" = "gif" ∧
    normalizeFormat asciiTables "gif" ≠ "webp" := by
  decide

/-- C4, amended: `normalizeFormat f` is computed from the trimmed, lower-cased
`f`; it is "webp" when that is empty, "jpg" when that is "jpeg", and otherwise
that string itself, recognized or not. Hence the result is a supported format
exactly when the trimmed, lower-cased input is empty, "jpeg", "webp", "png" or
"jpg". -/
theorem normalizeFormat_spec (u : UnicodeTables) (f : String) :
    (toLower u (trimSpace u f) = "" → normalizeFormat u f = "webp") ∧
    (toLower u (trimSpace u f) = "jpeg" → normalizeFormat u f = "jpg") ∧
    (toLower u (trimSpace u f) ≠ "" → toLower u (trimSpace u f) ≠ "jpeg" →
      normalizeFormat u f = toLower u (trimSpace u f)) ∧
    (isSupportedFormat (normalizeFormat u f) = true ↔
      toLower u (trimSpace u f) = "" ∨ toLower u (trimSpace u f) = "jpeg" ∨
      toLower u (trimSpace u f) = "webp" ∨ toLower u (trimSpace u f) = "png" ∨
      toLower u (trimSpace u f) = "jpg") := by
  refine ⟨?_, ?_, ?_, ?_⟩
  · intro h
    simp [normalizeFormat, h]
  · intro h
    simp [normalizeFormat, h]
  · intro h1 h2
    simp [normalizeFormat, h1, h2]
  · unfold normalizeFormat
    by_cases h1 : toLower u (trimSpace u f) = ""
    · simp [h1, isSupportedFormat]
    · by_cases h2 : toLower u (trimSpace u f) = "jpeg"
      · simp [h2, isSupportedFormat]
      · simp [h1, h2, isSupportedFormat, or_assoc]

/-- C4, the amended statement at concrete inputs: " JPEG " gives "jpg", the
blank string gives "webp", "PNG" gives "png" and "gif" stays "gif". -/
theorem normalizeFormat_spec_witness :
    normalizeFormat asciiTables " JPEG " = "jpg" ∧
    normalizeFormat asciiTables "  " = "webp" ∧
    normalizeFormat asciiTables "PNG" = "png" ∧
    normalizeFormat asciiTables "gif" = "gif" :=
  ⟨(normalizeFormat_spec asciiTables " JPEG ").2.1 (by decide),
   (normalizeFormat_spec asciiTables "  ").1 (by decide),
   ((normalizeFormat_spec asciiTables "PNG").2.2.1 (by decide) (by decide)).trans (by decide),
   ((normalizeFormat_spec asciiTables "gif").2.2.1 (by decide) (by decide)).trans (by decide)⟩

/-! ## Quality normalization (C3) -/

theorem outputPath_data (k : ProcessKey) :
    (outputPathForKey k).data =
      ("output/".data ++ k.MD5.data) ++
        (if k.Format = "jpg" then ".jpg_".data ++ (fmtInt k.Quality).data else ".".data ++ k.Format.data) := by
  unfold outputPathForKey
  split <;> simp [String.data_append, List.append_assoc]

theorem validKey_format (k : ProcessKey) (h : validKey k = true) :
    (k.Format = "jpg" ∧ 1 ≤ k.Quality ∧ k.Quality ≤ 100) ∨
    ((k.Format = "webp" ∨ k.Format = "png") ∧ k.Quality = 0) := by
  unfold validKey isSupportedFormat at h
  simp only [Bool.and_eq_true, Bool.or_eq_true, decide_eq_true_eq] at h
  obtain ⟨⟨_, hf⟩, hq⟩ := h
  by_cases hj : k.Format = "jpg"
  · left
    simp only [hj, if_true, decide_eq_true_eq] at hq
    exact ⟨hj, hq⟩
  · right
    simp only [hj, if_false, decide_eq_true_eq] at hq
    rcases hf with (hf | hf) | hf
    · exact ⟨Or.inl hf, hq⟩
    · exact ⟨Or.inr hf, hq⟩
    · exact absurd hf hj

/-- C10: two distinct well-formed fingerprints (digest of 32 lower-case hex
digits, format webp, png or jpg, quality 1..100 for jpg and 0 otherwise) have
distinct artifact paths. -/
theorem outputPath_distinct (k1 k2 : ProcessKey)
    (h1 : validKey k1 = true) (h2 : validKey k2 = true) (hne : k1 ≠ k2) :
    outputPathForKey k1 ≠ outputPathForKey k2 := by
  intro h
  apply hne
  have hd := congrArg String.data h
  rw [outputPath_data, outputPath_data] at hd
  have hl1 : k1.MD5.data.length = 32 := by
    unfold validKey at h1; simp only [Bool.and_eq_true, decide_eq_true_eq] at h1; exact h1.1.1.1
  have hl2 : k2.MD5.data.length = 32 := by
    unfold validKey at h2; simp only [Bool.and_eq_true, decide_eq_true_eq] at h2; exact h2.1.1.1
  obtain ⟨hp, hs⟩ := List.append_inj hd (by simp [hl1, hl2])
  have hmd5 : k1.MD5 = k2.MD5 := String.ext (List.append_cancel_left hp)
  obtain ⟨m1, f1, q1⟩ := k1
  obtain ⟨m2, f2, q2⟩ := k2
  simp only at hmd5 hs
  subst hmd5
  rcases validKey_format _ h1 with ⟨hf1, hq1, hq1b⟩ | ⟨hf1 | hf1, hq1⟩ <;>
  rcases validKey_format _ h2 with ⟨hf2, hq2, hq2b⟩ | ⟨hf2 | hf2, hq2⟩ <;>
  simp only at hf1 hf2 hq1 hq2 <;> subst hf1 <;> subst hf2
  all_goals first
    | (simp at hs; done)
    | (subst hq1; subst hq2; rfl)
    | skip
  simp at hs
  have := fmtInt_injective_nonneg (by omega) (by omega) (String.ext hs)
  subst this; rfl

/-- C10 at two jpg fingerprints of one digest with qualities 80 and 90: the
paths differ. -/
theorem outputPath_distinct_witness :
    validKey ⟨"d41d8cd98f00b204e9800998ecf8427e", "jpg", 80⟩ = true ∧
    validKey ⟨"d41d8cd98f00b204e9800998ecf8427e", "jpg", 90⟩ = true ∧
    outputPathForKey ⟨"d41d8cd98f00b204e9800998ecf8427e", "jpg", 80⟩ ≠
      outputPathForKey ⟨"d41d8cd98f00b204e9800998ecf8427e", "jpg", 90⟩ :=
  ⟨by decide, by decide,
   outputPath_distinct ⟨"d41d8cd98f00b204e9800998ecf8427e", "jpg", 80⟩
     ⟨"d41d8cd98f00b204e9800998ecf8427e", "jpg", 90⟩ (by decide) (by decide) (by decide)⟩

/-! ## Eviction sweep (C7) -/

theorem recordServed_foldl (paths : List String) : ∀ (s : State),
    (paths.foldl recordServed s).toDelete = s.toDelete ++ paths ∧
    (paths.foldl recordServed s).count = s.count + paths.length ∧
    (paths.foldl recordServed s).files = s.files := by
  induction paths with
  | nil => intro s; simp
  | cons p ps ih =>
    intro s
    obtain ⟨h1, h2, h3⟩ := ih (recordServed s p)
    simp only [List.foldl_cons, h1, h2, h3]
    refine ⟨by simp [recordServed], ?_, rfl⟩
    simp only [recordServed, List.length_cons]
    push_cast
    ring

theorem removeAll_apply (ps : List String) : ∀ (fs : String → Option Bytes) (p : String),
    removeAll fs ps p = if p ∈ ps then none else fs p := by
  induction ps with
  | nil => intro fs p; simp [removeAll]
  | cons q qs ih =>
    intro fs p
    simp only [removeAll, ih, setFile, List.mem_cons]
    by_cases h1 : p ∈ qs
    · simp [h1]
    · by_cases h2 : p = q <;> simp [h1, h2]

/-- C7: from a reset ledger (empty list, counter 0), after the recordings
`paths` one sweep cycle removes every recorded path from the store, leaves
every other path as it was, empties the ledger and zeroes the counter when at
least 50 recordings were made, and changes nothing when fewer were made. -/
theorem sweep_after_recordings (s : State) (paths : List String)
    (hcount : s.count = 0) (hledger : s.toDelete = []) :
    (50 ≤ paths.length →
      (∀ p ∈ paths, (sweep (paths.foldl recordServed s)).files p = none) ∧
      (∀ p, p ∉ paths → (sweep (paths.foldl recordServed s)).files p = s.files p) ∧
      (sweep (paths.foldl recordServed s)).toDelete = [] ∧
      (sweep (paths.foldl recordServed s)).count = 0) ∧
    (paths.length < 50 →
      (sweep (paths.foldl recordServed s)).files = s.files ∧
      (sweep (paths.foldl recordServed s)).toDelete = paths ∧
      (sweep (paths.foldl recordServed s)).count = paths.length) := by
  obtain ⟨h1, h2, h3⟩ := recordServed_foldl paths s
  rw [hledger, List.nil_append] at h1
  rw [hcount, zero_add] at h2
  constructor
  · intro hk
    have hge : (paths.foldl recordServed s).count ≥ 50 := by rw [h2]; exact_mod_cast hk
    unfold sweep
    rw [if_pos hge]
    simp only [h1, h3, removeAll_apply]
    refine ⟨fun p hp => by simp [hp], fun p hp => by simp [hp], trivial, trivial⟩
  · intro hk
    have hlt : ¬ (paths.foldl recordServed s).count ≥ 50 := by
      rw [h2]; intro h; have : (50 : Int) ≤ (paths.length : Int) := h; omega
    unfold sweep
    rw [if_neg hlt]
    exact ⟨h3, h1, h2⟩

/-- C7 at a concrete store: 50 recordings of one path followed by a sweep
remove the file, 49 recordings followed by a sweep leave it. -/
theorem sweep_after_recordings_witness :
    (sweep ((List.replicate 50 "output/a.webp").foldl recordServed
        (init 3 (fun p => if p = "output/a.webp" then some [1] else none)))).files "output/a.webp" = none ∧
    (sweep ((List.replicate 49 "output/a.webp").foldl recordServed
        (init 3 (fun p => if p = "output/a.webp" then some [1] else none)))).files "output/a.webp" = some [1] :=
  ⟨((sweep_after_recordings (init 3 (fun p => if p = "output/a.webp" then some [1] else none))
      (List.replicate 50 "output/a.webp") rfl rfl).1 (by simp)).1 "output/a.webp" (by simp),
   by
    rw [((sweep_after_recordings (init 3 (fun p => if p = "output/a.webp" then some [1] else none))
      (List.replicate 49 "output/a.webp") rfl rfl).2 (by simp)).1]
    rfl⟩


/-! ## Write / resolve round trip (C8) -/

theorem webp_ne_png (m : String) : "output/" ++ m ++ "." ++ "webp" ≠ "output/" ++ m ++ "." ++ "png" := by
  intro h
  have := congrArg String.data h
  simp [String.data_append] at this

theorem webp_ne_jpg (m : String) (q : Nat) : "output/" ++ m ++ "." ++ "webp" ≠ jpgPath m q := by
  intro h
  have := congrArg String.data h
  simp [jpgPath, String.data_append] at this

theorem png_ne_jpg (m : String) (q : Nat) : "output/" ++ m ++ "." ++ "png" ≠ jpgPath m q := by
  intro h
  have := congrArg String.data h
  simp [jpgPath, String.data_append] at this

theorem jpgPath_injective (m : String) {q r : Nat} (h : jpgPath m q = jpgPath m r) : q = r := by
  have := congrArg String.data h
  simp only [jpgPath, String.data_append, List.append_assoc, List.append_cancel_left_eq] at this
  have h2 := fmtInt_injective_nonneg (Int.ofNat_nonneg q) (Int.ofNat_nonneg r) (String.ext this)
  exact_mod_cast h2

theorem path_nonempty (m a c : String) : "output/" ++ m ++ a ++ c ≠ "" := by
  intro h
  have := congrArg String.data h
  simp [String.data_append] at this

theorem jpgPath_nonempty (m : String) (q : Nat) : jpgPath m q ≠ "" :=
  path_nonempty m _ _

theorem probeFormat_plain (fs : String → Option Bytes) (m f : String) (hj : f ≠ "jpg") :
    probeFormat fs m f =
      if (fs ("output/" ++ m ++ "." ++ f)).isSome = true then "output/" ++ m ++ "." ++ f else "" := by
  simp [probeFormat, hj]

theorem probeFormat_absent (fs : String → Option Bytes) (m f : String) (hj : f ≠ "jpg")
    (h : fs ("output/" ++ m ++ "." ++ f) = none) : probeFormat fs m f = "" := by
  simp [probeFormat_plain fs m f hj, h]

theorem probeFormat_present (fs : String → Option Bytes) (m f : String) (hj : f ≠ "jpg") (c : Bytes)
    (h : fs ("output/" ++ m ++ "." ++ f) = some c) :
    probeFormat fs m f = "output/" ++ m ++ "." ++ f := by
  simp [probeFormat_plain fs m f hj, h]

theorem probeFormat_jpg_found (fs : String → Option Bytes) (m : String) (q : Nat)
    (h : (List.range' 1 100).find? (fun r => (fs (jpgPath m r)).isSome) = some q) :
    probeFormat fs m "jpg" = jpgPath m q := by
  simp [probeFormat, h]

theorem find_range (p : Nat → Bool) : ∀ (n s q : Nat), s ≤ q → q < s + n → p q = true →
    (∀ r, s ≤ r → r < q → p r = false) → (List.range' s n).find? p = some q := by
  intro n
  induction n with
  | zero => intro s q h1 h2; omega
  | succ n ih =>
    intro s q h1 h2 hp hlt
    rw [List.range'_succ]
    by_cases hsq : s = q
    · subst hsq
      simp [hp]
    · have hps : p s = false := hlt s (le_refl _) (by omega)
      rw [List.find?_cons_of_neg _ (by simp [hps])]
      exact ih (s + 1) q (by omega) (by omega) hp (fun r hr1 hr2 => hlt r (by omega) hr2)

theorem probeFormat_exists (fs : String → Option Bytes) (md5Str f : String)
    (h : probeFormat fs md5Str f ≠ "") : (fs (probeFormat fs md5Str f)).isSome = true := by
  unfold probeFormat at h ⊢
  by_cases hj : f = "jpg"
  · simp only [hj, if_true] at h ⊢
    cases hf : (List.range' 1 100).find? (fun q => (fs (jpgPath md5Str q)).isSome) with
    | none => simp [hf] at h
    | some q => simpa using List.find?_some hf
  · simp only [hj, if_false] at h ⊢
    by_cases he : (fs ("output/" ++ md5Str ++ "." ++ f)).isSome = true
    · simp [he]
    · simp [he] at h

theorem probeFormats_exists (fs : String → Option Bytes) (md5Str : String) :
    ∀ (l : List String), probeFormats fs md5Str l ≠ "" →
      (fs (probeFormats fs md5Str l)).isSome = true := by
  intro l
  induction l with
  | nil => intro h; exact absurd rfl h
  | cons f rest ih =>
    intro h
    unfold probeFormats at h ⊢
    by_cases hf : probeFormat fs md5Str f ≠ ""
    · rw [if_pos hf]
      exact probeFormat_exists fs md5Str f hf
    · rw [if_neg hf] at h ⊢
      exact ih h


theorem probeFormats_found (fs : String → Option Bytes) (md5Str f : String)
    (hf : probeFormat fs md5Str f ≠ "") :
    ∀ (l : List String), f ∈ l → probeFormats fs md5Str l ≠ "" := by
  intro l
  induction l with
  | nil => intro h; simp at h
  | cons g rest ih =>
    intro hmem
    unfold probeFormats
    by_cases hg : probeFormat fs md5Str g ≠ ""
    · rw [if_pos hg]; exact hg
    · rw [if_neg hg]
      rcases List.mem_cons.mp hmem with h | h
      · subst h; exact absurd hf hg
      · exact ih h

theorem outputPath_jpg (m : String) (q : Int) (h : 0 ≤ q) :
    outputPathForKey ⟨m, "jpg", q⟩ = jpgPath m q.toNat := by
  simp [outputPathForKey, jpgPath, Int.toNat_of_nonneg h]

theorem own_probe_nonempty (fs : String → Option Bytes) (k : ProcessKey) (b : Bytes)
    (hv : validKey k = true) :
    probeFormat (setFile fs (outputPathForKey k) (some b)) k.MD5 k.Format ≠ "" := by
  obtain ⟨m, f, q⟩ := k
  rcases validKey_format _ hv with ⟨hf, hq1, hq2⟩ | ⟨hf, hq⟩
  · simp only at hf hq1 hq2 ⊢
    subst hf
    rw [outputPath_jpg m q (by omega)]
    have hsome : ((List.range' 1 100).find?
        (fun r => (setFile fs (jpgPath m q.toNat) (some b) (jpgPath m r)).isSome)).isSome = true := by
      rw [List.find?_isSome]
      refine ⟨q.toNat, ?_, ?_⟩
      · rw [List.mem_range'_1]; omega
      · simp [setFile]
    obtain ⟨r, hr⟩ := Option.isSome_iff_exists.mp hsome
    rw [probeFormat_jpg_found _ m r hr]
    exact jpgPath_nonempty m r
  · simp only at hf hq ⊢
    have hj : f ≠ "jpg" := by rcases hf with h | h <;> subst h <;> decide
    have hown : outputPathForKey ⟨m, f, q⟩ = "output/" ++ m ++ "." ++ f := by
      simp [outputPathForKey, hj]
    rw [hown, probeFormat_present _ m f hj b (by simp [setFile])]
    exact path_nonempty m _ _

/-- C8, amended: after the job has written `b` at the artifact path of a
well-formed fingerprint, the download probe for its digest selects an existing
artifact of that digest; when none of the paths probed earlier (webp before
png before jpg, jpg qualities ascending) exists, the selected path is the one
just written and its content is `b`. -/
theorem write_then_resolve (fs : String → Option Bytes) (k : ProcessKey) (b : Bytes)
    (hv : validKey k = true) :
    (∃ c, setFile fs (outputPathForKey k) (some b)
        (resolve (setFile fs (outputPathForKey k) (some b)) k.MD5) = some c) ∧
    ((∀ p ∈ earlierPaths k, fs p = none) →
      resolve (setFile fs (outputPathForKey k) (some b)) k.MD5 = outputPathForKey k ∧
      setFile fs (outputPathForKey k) (some b)
        (resolve (setFile fs (outputPathForKey k) (some b)) k.MD5) = some b) := by
  constructor
  · have hmem : k.Format ∈ ["webp", "png", "jpg"] := by
      rcases validKey_format _ hv with ⟨hf, _⟩ | ⟨hf | hf, _⟩ <;> simp [hf]
    have hne := probeFormats_found _ k.MD5 k.Format (own_probe_nonempty fs k b hv) _ hmem
    have hex := probeFormats_exists _ k.MD5 _ hne
    exact Option.isSome_iff_exists.mp hex
  · intro hfree
    have key : resolve (setFile fs (outputPathForKey k) (some b)) k.MD5 = outputPathForKey k := by
      obtain ⟨m, f, q⟩ := k
      rcases validKey_format _ hv with ⟨hf, hq1, hq2⟩ | ⟨hf | hf, hq⟩
      · simp only at hf hq1 hq2 hfree ⊢
        subst hf
        have hw : fs ("output/" ++ m ++ "." ++ "webp") = none := hfree _ (by simp [earlierPaths])
        have hp : fs ("output/" ++ m ++ "." ++ "png") = none := hfree _ (by simp [earlierPaths])
        have hq : ∀ r, 1 ≤ r → r < q.toNat → fs (jpgPath m r) = none := by
          intro r hr1 hr2
          apply hfree
          simp only [earlierPaths]
          simp only [show ("jpg" : String) ≠ "webp" by decide, show ("jpg" : String) ≠ "png" by decide,
            if_false, List.mem_append, List.mem_map, List.mem_range'_1]
          right
          exact ⟨r, ⟨hr1, by omega⟩, rfl⟩
        rw [outputPath_jpg m q (by omega)]
        have hfind : (List.range' 1 100).find?
            (fun r => (setFile fs (jpgPath m q.toNat) (some b) (jpgPath m r)).isSome) = some q.toNat := by
          apply find_range _ 100 1 q.toNat (by omega) (by omega)
          · simp [setFile]
          · intro r hr1 hr2
            have hne : jpgPath m r ≠ jpgPath m q.toNat := fun h => by
              have := jpgPath_injective m h; omega
            simp [setFile, hne, hq r hr1 hr2]
        have e1 : probeFormat (setFile fs (jpgPath m q.toNat) (some b)) m "webp" = "" :=
          probeFormat_absent _ m "webp" (by decide) (by simp [setFile, webp_ne_jpg, hw])
        have e2 : probeFormat (setFile fs (jpgPath m q.toNat) (some b)) m "png" = "" :=
          probeFormat_absent _ m "png" (by decide) (by simp [setFile, png_ne_jpg, hp])
        have e3 := probeFormat_jpg_found _ m q.toNat hfind
        simp [resolve, probeFormats, e1, e2, e3, jpgPath_nonempty]
      · simp only at hf hq hfree ⊢
        subst hf
        have hown : outputPathForKey ⟨m, "webp", q⟩ = "output/" ++ m ++ "." ++ "webp" := by
          simp [outputPathForKey]
        rw [hown]
        have e1 := probeFormat_present (setFile fs ("output/" ++ m ++ "." ++ "webp") (some b)) m "webp"
          (by decide) b (by simp [setFile])
        simp [resolve, probeFormats, e1, path_nonempty]
      · simp only at hf hq hfree ⊢
        subst hf
        have hw : fs ("output/" ++ m ++ "." ++ "webp") = none := hfree _ (by simp [earlierPaths])
        have hown : outputPathForKey ⟨m, "png", q⟩ = "output/" ++ m ++ "." ++ "png" := by
          simp [outputPathForKey]
        rw [hown]
        have e1 : probeFormat (setFile fs ("output/" ++ m ++ "." ++ "png") (some b)) m "webp" = "" :=
          probeFormat_absent _ m "webp" (by decide) (by simp [setFile, webp_ne_png, hw])
        have e2 := probeFormat_present (setFile fs ("output/" ++ m ++ "." ++ "png") (some b)) m "png"
          (by decide) b (by simp [setFile])
        simp [resolve, probeFormats, e1, e2, path_nonempty]
    rw [key]
    exact ⟨rfl, by simp [setFile]⟩


/-- C8, amended statement at a concrete fingerprint: a jpg artifact of quality
80 written into an empty directory is the one the probe selects. -/
theorem write_then_resolve_witness :
    validKey ⟨"d41d8cd98f00b204e9800998ecf8427e", "jpg", 80⟩ = true ∧
    resolve (setFile (fun _ => none)
        (outputPathForKey ⟨"d41d8cd98f00b204e9800998ecf8427e", "jpg", 80⟩) (some [7]))
        "d41d8cd98f00b204e9800998ecf8427e" =
      outputPathForKey ⟨"d41d8cd98f00b204e9800998ecf8427e", "jpg", 80⟩ :=
  ⟨by decide,
   ((write_then_resolve (fun _ => none) ⟨"d41d8cd98f00b204e9800998ecf8427e", "jpg", 80⟩ [7]
      (by decide)).2 (fun _ _ => rfl)).1⟩

/-- C8, counterexample: the same content is converted to webp (codec output
`[1]`) and then to png (codec output `[2]`); right after the png job has
written `[2]` at its artifact path, the download probe for the digest selects
the webp artifact, whose content is `[1]`. -/
theorem write_then_resolve_other_format :
    validKey ⟨"d41d8cd98f00b204e9800998ecf8427e", "png", 0⟩ = true ∧
    (run (init 3 (fun _ => none))
      [Event.upload ⟨"d41d8cd98f00b204e9800998ecf8427e", "webp", 0⟩ "a.gif" [0],
       Event.acquire 0, Event.setProcessing 0, Event.writeOk 0 [1], Event.markDone 0,
       Event.release 0,
       Event.upload ⟨"d41d8cd98f00b204e9800998ecf8427e", "png", 0⟩ "a.gif" [0],
       Event.acquire 1, Event.setProcessing 1, Event.writeOk 1 [2]]).files
      (outputPathForKey ⟨"d41d8cd98f00b204e9800998ecf8427e", "png", 0⟩) = some [2] ∧
    resolve (run (init 3 (fun _ => none))
      [Event.upload ⟨"d41d8cd98f00b204e9800998ecf8427e", "webp", 0⟩ "a.gif" [0],
       Event.acquire 0, Event.setProcessing 0, Event.writeOk 0 [1], Event.markDone 0,
       Event.release 0,
       Event.upload ⟨"d41d8cd98f00b204e9800998ecf8427e", "png", 0⟩ "a.gif" [0],
       Event.acquire 1, Event.setProcessing 1, Event.writeOk 1 [2]]).files
      "d41d8cd98f00b204e9800998ecf8427e" = "output/d41d8cd98f00b204e9800998ecf8427e.webp" ∧
    (run (init 3 (fun _ => none))
      [Event.upload ⟨"d41d8cd98f00b204e9800998ecf8427e", "webp", 0⟩ "a.gif" [0],
       Event.acquire 0, Event.setProcessing 0, Event.writeOk 0 [1], Event.markDone 0,
       Event.release 0,
       Event.upload ⟨"d41d8cd98f00b204e9800998ecf8427e", "png", 0⟩ "a.gif" [0],
       Event.acquire 1, Event.setProcessing 1, Event.writeOk 1 [2]]).files
      "output/d41d8cd98f00b204e9800998ecf8427e.webp" = some [1] := by
  refine ⟨by decide, by decide, by decide, by decide⟩

/-! ## Executions -/

theorem run_invariant (P : State → Prop) (hstep : ∀ s e, P s → P (step s e)) :
    ∀ (es : List Event) (s : State), P s → P (run s es) := by
  intro es
  induction es with
  | nil => intro s h; exact h
  | cons e es ih => intro s h; exact ih (step s e) (hstep s e h)

theorem step_effect (s : State) (e : Event) : Effect s e (step s e) := by
  cases e with
  | upload key filename buffer =>
    simp only [step]
    unfold uploadSubmit
    by_cases hp : s.processed key = true
    · rw [if_pos hp]
      exact Effect.silent rfl rfl rfl rfl rfl rfl
    · rw [if_neg hp]
      exact Effect.spawn key filename buffer (by simp [registers, hp]) rfl rfl rfl rfl rfl rfl
  | wsCheck key filename buffer => exact Effect.silent rfl rfl rfl rfl rfl rfl
  | wsRead r =>
    simp only [step]
    unfold wsRead
    split
    · split
      · split <;> exact Effect.silent rfl rfl rfl rfl rfl rfl
      · exact Effect.silent rfl rfl rfl rfl rfl rfl
    · exact Effect.silent rfl rfl rfl rfl rfl rfl
  | wsRegister r =>
    simp only [step]
    unfold wsRegister
    split
    · rename_i q hq
      split
      · rename_i hc
        refine Effect.spawn q.key q.filename q.buffer ?_ rfl rfl rfl rfl rfl rfl
        simp only [registers, hq]
        rcases hc with hc | hc <;> simp [hc]
      · exact Effect.silent rfl rfl rfl rfl rfl rfl
    · exact Effect.silent rfl rfl rfl rfl rfl rfl
  | acquire j =>
    simp only [step]
    unfold acquire
    split
    · rename_i job hj
      split
      · rename_i hc
        exact Effect.acquire j job hj hc.1 hc.2 rfl rfl rfl rfl rfl rfl
      · exact Effect.silent rfl rfl rfl rfl rfl rfl
    · exact Effect.silent rfl rfl rfl rfl rfl rfl
  | setProcessing j =>
    simp only [step]
    unfold setProcessing
    split
    · rename_i job hj
      split
      · rename_i hc
        exact Effect.setProcessing j job hj hc rfl rfl rfl rfl rfl rfl
      · exact Effect.silent rfl rfl rfl rfl rfl rfl
    · exact Effect.silent rfl rfl rfl rfl rfl rfl
  | jobError j =>
    simp only [step]
    unfold jobError
    split
    · rename_i job hj
      split
      · rename_i hc
        exact Effect.convert j job PC.failing hj hc (Or.inl rfl) rfl rfl rfl rfl rfl rfl
      · exact Effect.silent rfl rfl rfl rfl rfl rfl
    · exact Effect.silent rfl rfl rfl rfl rfl rfl
  | writeOk j out =>
    simp only [step]
    unfold writeOk
    split
    · rename_i job hj
      split
      · rename_i hc
        exact Effect.convert j job PC.written hj hc (Or.inr rfl) rfl rfl rfl rfl rfl rfl
      · exact Effect.silent rfl rfl rfl rfl rfl rfl
    · exact Effect.silent rfl rfl rfl rfl rfl rfl
  | writeFail j residue =>
    simp only [step]
    unfold writeFail
    split
    · rename_i job hj
      split
      · rename_i hc
        split <;> exact Effect.convert j job PC.failing hj hc (Or.inl rfl) rfl rfl rfl rfl rfl rfl
      · exact Effect.silent rfl rfl rfl rfl rfl rfl
    · exact Effect.silent rfl rfl rfl rfl rfl rfl
  | markFailed j =>
    simp only [step]
    unfold jobMarkFailed
    split
    · rename_i job hj
      split
      · rename_i hc
        exact Effect.markFailed j job hj hc rfl rfl rfl rfl rfl rfl
      · exact Effect.silent rfl rfl rfl rfl rfl rfl
    · exact Effect.silent rfl rfl rfl rfl rfl rfl
  | markDone j =>
    simp only [step]
    unfold jobMarkDone
    split
    · rename_i job hj
      split
      · rename_i hc
        exact Effect.markDone j job hj hc rfl rfl rfl rfl rfl rfl
      · exact Effect.silent rfl rfl rfl rfl rfl rfl
    · exact Effect.silent rfl rfl rfl rfl rfl rfl
  | release j =>
    simp only [step]
    unfold release
    split
    · rename_i job hj
      split
      · rename_i ok hpc
        split
        · rename_i hpos
          exact Effect.release j job ok hj hpc hpos rfl rfl rfl rfl rfl rfl
        · exact Effect.silent rfl rfl rfl rfl rfl rfl
      · exact Effect.silent rfl rfl rfl rfl rfl rfl
    · exact Effect.silent rfl rfl rfl rfl rfl rfl
  | download md5Str =>
    simp only [step]
    unfold download
    split <;> exact Effect.silent rfl rfl rfl rfl rfl rfl
  | sweep =>
    simp only [step]
    unfold sweep
    split <;> exact Effect.silent rfl rfl rfl rfl rfl rfl

theorem countP_set_get (p : Job → Bool) (l : List Job) (j : Nat) (a b : Job) (h : l[j]? = some a) :
    (l.set j b).countP p = l.countP p - (if p a = true then 1 else 0) + (if p b = true then 1 else 0) := by
  obtain ⟨hlt, hget⟩ := List.getElem?_eq_some.mp h
  rw [List.countP_set p l j b hlt, hget]

theorem countP_pos_get (p : Job → Bool) (l : List Job) (j : Nat) (a : Job) (h : l[j]? = some a)
    (hp : p a = true) : 0 < l.countP p := by
  rw [List.countP_pos_iff]
  exact ⟨a, List.getElem?_mem h, hp⟩

/-! ## Bounded executor (C9) -/

theorem slotHolders_move (s t : State) (j : Nat) (job : Job) (pc : PC)
    (hget : s.jobs[j]? = some job) (hjobs : t.jobs = s.jobs.set j { job with pc := pc }) :
    slotHolders t = slotHolders s - (if job.pc.holdsSlot = true then 1 else 0) +
      (if pc.holdsSlot = true then 1 else 0) ∧
    (job.pc.holdsSlot = true → 0 < slotHolders s) := by
  unfold slotHolders
  rw [hjobs, countP_set_get _ _ _ _ _ hget]
  exact ⟨rfl, fun h => countP_pos_get (fun job => job.pc.holdsSlot) _ _ _ hget h⟩

theorem semInv_step (s : State) (e : Event)
    (h : slotHolders s = s.semLen ∧ s.semLen ≤ s.semCap) :
    slotHolders (step s e) = (step s e).semLen ∧ (step s e).semLen ≤ (step s e).semCap := by
  obtain ⟨h1, h2⟩ := h
  cases step_effect s e with
  | silent hjobs _ _ _ hlen hcap =>
    rw [hlen, hcap]
    exact ⟨by unfold slotHolders; rw [hjobs]; exact h1, h2⟩
  | spawn key filename buffer _ hjobs _ _ _ hlen hcap =>
    rw [hlen, hcap]
    refine ⟨?_, h2⟩
    unfold slotHolders at h1 ⊢
    rw [hjobs, List.countP_append]
    simpa [PC.holdsSlot] using h1
  | acquire j job hget hpc hfree hjobs _ _ _ hlen hcap =>
    obtain ⟨hm, _⟩ := slotHolders_move s _ j job _ hget hjobs
    rw [hlen, hcap, hm, hpc]
    simp only [PC.holdsSlot, Bool.false_eq_true, ↓reduceIte]
    constructor <;> omega
  | setProcessing j job hget hpc hjobs _ _ _ hlen hcap =>
    obtain ⟨hm, hp⟩ := slotHolders_move s _ j job _ hget hjobs
    rw [hpc] at hm hp
    have := hp rfl
    rw [hlen, hcap, hm]
    simp only [PC.holdsSlot, Bool.false_eq_true, ↓reduceIte]
    constructor <;> omega
  | convert j job pc hget hpc hnext hjobs _ _ _ hlen hcap =>
    obtain ⟨hm, hp⟩ := slotHolders_move s _ j job _ hget hjobs
    rw [hpc] at hm hp
    have := hp rfl
    rw [hlen, hcap, hm]
    rcases hnext with hn | hn <;> subst hn <;>
      simp only [PC.holdsSlot, Bool.false_eq_true, ↓reduceIte] <;> constructor <;> omega
  | markFailed j job hget hpc hjobs _ _ _ hlen hcap =>
    obtain ⟨hm, hp⟩ := slotHolders_move s _ j job _ hget hjobs
    rw [hpc] at hm hp
    have := hp rfl
    rw [hlen, hcap, hm]
    simp only [PC.holdsSlot, Bool.false_eq_true, ↓reduceIte]
    constructor <;> omega
  | markDone j job hget hpc hjobs _ _ _ hlen hcap =>
    obtain ⟨hm, hp⟩ := slotHolders_move s _ j job _ hget hjobs
    rw [hpc] at hm hp
    have := hp rfl
    rw [hlen, hcap, hm]
    simp only [PC.holdsSlot, Bool.false_eq_true, ↓reduceIte]
    constructor <;> omega
  | release j job ok hget hpc hpos hjobs _ _ _ hlen hcap =>
    obtain ⟨hm, hp⟩ := slotHolders_move s _ j job _ hget hjobs
    rw [hpc] at hm hp
    have := hp rfl
    rw [hlen, hcap, hm]
    simp only [PC.holdsSlot, Bool.false_eq_true, ↓reduceIte]
    constructor <;> omega

theorem semCap_step (s : State) (e : Event) : (step s e).semCap = s.semCap := by
  cases step_effect s e <;> assumption

/-- C9: in every state reached from the initial state by any sequence of
events, the number of jobs that hold a semaphore slot is at most the capacity
N of the channel, N being the configured `max_concurrent_tasks`, or 3 when that
is not positive; the number of holders equals the number of elements in the
channel, so the deferred release of a returning job is always enabled. -/
theorem bounded_executor (maxConcurrentTasks : Int) (disk : String → Option Bytes)
    (es : List Event) :
    slotHolders (run (init maxConcurrentTasks disk) es) ≤ semaphoreCapacity maxConcurrentTasks ∧
    (semaphoreCapacity maxConcurrentTasks : Int) =
      (if maxConcurrentTasks ≤ 0 then 3 else maxConcurrentTasks) ∧
    slotHolders (run (init maxConcurrentTasks disk) es) =
      (run (init maxConcurrentTasks disk) es).semLen := by
  have hinv : slotHolders (run (init maxConcurrentTasks disk) es) =
      (run (init maxConcurrentTasks disk) es).semLen ∧
      (run (init maxConcurrentTasks disk) es).semLen ≤ (run (init maxConcurrentTasks disk) es).semCap :=
    run_invariant (fun s => slotHolders s = s.semLen ∧ s.semLen ≤ s.semCap) semInv_step es _
      ⟨rfl, Nat.zero_le _⟩
  have hcap : (run (init maxConcurrentTasks disk) es).semCap = semaphoreCapacity maxConcurrentTasks :=
    run_invariant (fun s => s.semCap = semaphoreCapacity maxConcurrentTasks)
      (fun s e hs => by rw [← hs]; exact semCap_step s e) es _ rfl
  refine ⟨by omega, ?_, hinv.1⟩
  unfold semaphoreCapacity
  split
  · rfl
  · rw [Int.toNat_of_nonneg (by omega)]

/-- Capacity is reached: with capacity 2 and three dispatched jobs, two hold a
slot and the third cannot acquire one. -/
theorem slotHolders_reaches_capacity :
    slotHolders (run (init 2 (fun _ => none))
      [Event.upload ⟨"a", "png", 0⟩ "a" [], Event.upload ⟨"b", "png", 0⟩ "b" [],
       Event.upload ⟨"c", "png", 0⟩ "c" [], Event.acquire 0, Event.acquire 1,
       Event.acquire 2]) = 2 := by
  decide

/-! ## Registration (C2) -/

theorem get_concat_length (l : List WsReq) (x : WsReq) : (l ++ [x])[l.length]? = some x :=
  List.getElem?_concat_length l x

theorem set_concat_length (l : List WsReq) (x y : WsReq) : (l ++ [x]).set l.length y = l ++ [y] := by
  induction l with
  | nil => rfl
  | cons a l ih => simp [List.set, ih]

theorem wsSubmit_answered (s : State) (key : ProcessKey) (filename : String) (buffer buf : Bytes)
    (hp : s.processed key = true) (hf : s.files (outputPathForKey key) = some buf) :
    wsSubmit s key filename buffer =
      { s with
        wsReqs := s.wsReqs ++ [⟨key, filename, buffer, WsStage.answered⟩]
        replies := s.replies ++ [Reply.wsDone key buf] } := by
  simp [wsSubmit, run, step, wsCheck, wsRead, wsRegister, setStage, get_concat_length,
    set_concat_length, hp, hf]

theorem wsSubmit_registered (s : State) (key : ProcessKey) (filename : String) (buffer : Bytes)
    (h : s.processed key = false ∨ s.files (outputPathForKey key) = none) :
    wsSubmit s key filename buffer =
      { s with
        queue := setKey s.queue key (some filename)
        statusMap := setKey s.statusMap key (some "queued")
        jobs := s.jobs ++ [⟨key, buffer, PC.waiting⟩]
        wsReqs := s.wsReqs ++ [⟨key, filename, buffer, WsStage.registered⟩]
        replies := s.replies ++ [Reply.wsQueued key] } := by
  by_cases hp : s.processed key = true
  · have hf : s.files (outputPathForKey key) = none := by
      rcases h with h | h
      · rw [hp] at h; exact absurd h (by decide)
      · exact h
    simp [wsSubmit, run, step, wsCheck, wsRead, wsRegister, setStage, register, get_concat_length,
      set_concat_length, hp, hf]
  · have hp2 : s.processed key = false := by simpa using hp
    simp [wsSubmit, run, step, wsCheck, wsRead, wsRegister, setStage, register, get_concat_length,
      set_concat_length, hp2]

/-- C2, amended: the upload adapter implements TryRegister: when
`processed[fp]` is set it answers "already processed", leaves `queue`,
`statusMap`, `processed` unchanged and dispatches no job, otherwise it writes
`statusMap[fp] = "queued"` and `queue[fp] = filename`, leaves every other entry
unchanged and dispatches exactly one job. The socket adapter, run without
interruption, leaves the maps unchanged and dispatches no job only when
`processed[fp]` is set and the artifact at `outputPathForKey(fp)` is readable
(it then sends the artifact with status "done"); when `processed[fp]` is not
set or the artifact is not readable it registers and dispatches exactly one
job. -/
theorem registration_step (s : State) (key : ProcessKey) (filename : String) (buffer : Bytes) :
    (s.processed key = true →
      (step s (Event.upload key filename buffer)).queue = s.queue ∧
      (step s (Event.upload key filename buffer)).statusMap = s.statusMap ∧
      (step s (Event.upload key filename buffer)).processed = s.processed ∧
      (step s (Event.upload key filename buffer)).jobs = s.jobs ∧
      (step s (Event.upload key filename buffer)).replies =
        s.replies ++ [Reply.alreadyProcessed key]) ∧
    (s.processed key = false →
      (step s (Event.upload key filename buffer)).queue = setKey s.queue key (some filename) ∧
      (step s (Event.upload key filename buffer)).statusMap =
        setKey s.statusMap key (some "queued") ∧
      (step s (Event.upload key filename buffer)).processed = s.processed ∧
      (step s (Event.upload key filename buffer)).jobs = s.jobs ++ [⟨key, buffer, PC.waiting⟩] ∧
      (step s (Event.upload key filename buffer)).replies = s.replies ++ [Reply.accepted key]) ∧
    (∀ buf, s.processed key = true → s.files (outputPathForKey key) = some buf →
      (wsSubmit s key filename buffer).queue = s.queue ∧
      (wsSubmit s key filename buffer).statusMap = s.statusMap ∧
      (wsSubmit s key filename buffer).processed = s.processed ∧
      (wsSubmit s key filename buffer).jobs = s.jobs ∧
      (wsSubmit s key filename buffer).replies = s.replies ++ [Reply.wsDone key buf]) ∧
    (s.processed key = false ∨ s.files (outputPathForKey key) = none →
      (wsSubmit s key filename buffer).queue = setKey s.queue key (some filename) ∧
      (wsSubmit s key filename buffer).statusMap = setKey s.statusMap key (some "queued") ∧
      (wsSubmit s key filename buffer).processed = s.processed ∧
      (wsSubmit s key filename buffer).jobs = s.jobs ++ [⟨key, buffer, PC.waiting⟩] ∧
      (wsSubmit s key filename buffer).replies = s.replies ++ [Reply.wsQueued key]) := by
  refine ⟨?_, ?_, ?_, ?_⟩
  · intro hp
    simp [step, uploadSubmit, hp]
  · intro hp
    simp [step, uploadSubmit, register, hp]
  · intro buf hp hf
    rw [wsSubmit_answered s key filename buffer buf hp hf]
    exact ⟨rfl, rfl, rfl, rfl, rfl⟩
  · intro h
    rw [wsSubmit_registered s key filename buffer h]
    exact ⟨rfl, rfl, rfl, rfl, rfl⟩

/-- C2, counterexample: after `pngKey` has been converted, served 50 times and
swept, `processed[pngKey]` is set but the artifact is gone; the socket adapter
then registers the fingerprint again (status "queued") and dispatches a second
job instead of leaving the registry unchanged. -/
theorem wsSubmit_after_eviction :
    (run (init 3 (fun _ => none)) evictionTrace).processed pngKey = true ∧
    (run (init 3 (fun _ => none)) evictionTrace).files (outputPathForKey pngKey) = none ∧
    (wsSubmit (run (init 3 (fun _ => none)) evictionTrace) pngKey "a.gif" [0]).statusMap pngKey =
      some "queued" ∧
    (wsSubmit (run (init 3 (fun _ => none)) evictionTrace) pngKey "a.gif" [0]).jobs =
      [⟨pngKey, [0], PC.exited true⟩, ⟨pngKey, [0], PC.waiting⟩] := by
  refine ⟨by decide, by decide, by decide, by decide⟩

/-- C2, amended statement at concrete states: in the initial state an upload
of `pngKey` is registered and dispatched; once the job has completed, a second
upload is answered "already processed" and a socket submission is answered
with the stored artifact, neither dispatching a job. -/
theorem registration_step_witness :
    (step (init 3 (fun _ => none)) (Event.upload pngKey "a.gif" [0])).jobs =
      [⟨pngKey, [0], PC.waiting⟩] ∧
    (step (run (init 3 (fun _ => none)) (evictionTrace.take 6))
      (Event.upload pngKey "a.gif" [0])).jobs =
      (run (init 3 (fun _ => none)) (evictionTrace.take 6)).jobs ∧
    (wsSubmit (run (init 3 (fun _ => none)) (evictionTrace.take 6)) pngKey "a.gif" [0]).replies =
      (run (init 3 (fun _ => none)) (evictionTrace.take 6)).replies ++ [Reply.wsDone pngKey [2]] :=
  ⟨((registration_step (init 3 (fun _ => none)) pngKey "a.gif" [0]).2.1 rfl).2.2.2.1,
   ((registration_step (run (init 3 (fun _ => none)) (evictionTrace.take 6)) pngKey "a.gif" [0]).1
      (by decide)).2.2.2.1,
   ((registration_step (run (init 3 (fun _ => none)) (evictionTrace.take 6)) pngKey "a.gif" [0]).2.2.1
      [2] (by decide) (by decide)).2.2.2.2⟩

/-! ## Completed fingerprints (C1, C6) -/

theorem get_set_self (l : List Job) (j : Nat) (a b : Job) (h : l[j]? = some a) :
    (l.set j b)[j]? = some b := by
  obtain ⟨hlt, _⟩ := List.getElem?_eq_some.mp h
  rw [List.getElem?_set]
  simp [hlt]

theorem get_set_cases (l : List Job) (j i : Nat) (b x : Job) (h : (l.set j b)[i]? = some x) :
    (i = j ∧ x = b) ∨ (i ≠ j ∧ l[i]? = some x) := by
  rw [List.getElem?_set] at h
  by_cases hij : j = i
  · left
    rw [if_pos hij] at h
    split at h
    · exact ⟨hij.symm, (Option.some.inj h).symm⟩
    · exact absurd h (by simp)
  · right
    rw [if_neg hij] at h
    exact ⟨fun h2 => hij h2.symm, h⟩

theorem get_set_other (l : List Job) (j i : Nat) (b : Job) (h : i ≠ j) :
    (l.set j b)[i]? = l[i]? :=
  List.getElem?_set_ne (fun h2 => h h2.symm)

theorem get_append_cases (l : List Job) (x y : Job) (i : Nat) (h : (l ++ [x])[i]? = some y) :
    l[i]? = some y ∨ (i = l.length ∧ y = x) := by
  rw [List.getElem?_append] at h
  split at h
  · exact Or.inl h
  · right
    rename_i hlt
    by_cases hi : i = l.length
    · subst hi
      simp at h
      exact ⟨rfl, h.symm⟩
    · have : i - l.length ≠ 0 := by omega
      obtain ⟨n, hn⟩ := Nat.exists_eq_succ_of_ne_zero this
      rw [hn] at h
      simp at h

theorem get_append_old (l : List Job) (x y : Job) (i : Nat) (h : l[i]? = some y) :
    (l ++ [x])[i]? = some y := by
  obtain ⟨hlt, _⟩ := List.getElem?_eq_some.mp h
  rw [List.getElem?_append_left hlt]
  exact h

theorem exists_set_iff (P : Job → Prop) (l : List Job) (j : Nat) (a b : Job)
    (hget : l[j]? = some a) (hab : P b ↔ P a) :
    (∃ (i : Nat) (x : Job), (l.set j b)[i]? = some x ∧ P x) ↔
      (∃ (i : Nat) (x : Job), l[i]? = some x ∧ P x) := by
  constructor
  · rintro ⟨i, x, hx, hp⟩
    rcases get_set_cases l j i b x hx with ⟨_, hxb⟩ | ⟨_, hold⟩
    · subst hxb
      exact ⟨j, a, hget, hab.mp hp⟩
    · exact ⟨i, x, hold, hp⟩
  · rintro ⟨i, x, hx, hp⟩
    by_cases hij : i = j
    · subst hij
      rw [hget] at hx
      cases hx
      exact ⟨i, b, get_set_self l i a b hget, hab.mpr hp⟩
    · exact ⟨i, x, by rw [get_set_other l j i b hij]; exact hx, hp⟩

theorem processedInv_move (s t : State) (j : Nat) (job : Job) (pc : PC)
    (h : ProcessedInv s) (hget : s.jobs[j]? = some job)
    (hjobs : t.jobs = s.jobs.set j { job with pc := pc })
    (hproc : t.processed = s.processed) (hpc : pc.succeeded = job.pc.succeeded) :
    ProcessedInv t := by
  unfold ProcessedInv at h ⊢
  intro k
  rw [hproc, hjobs, h k]
  exact (exists_set_iff (fun x => x.key = k ∧ x.pc.succeeded = true) _ j job _ hget
    (by simp [hpc])).symm

theorem processedInv_step (s : State) (e : Event) (h : ProcessedInv s) :
    ProcessedInv (step s e) := by
  unfold ProcessedInv at h ⊢
  cases step_effect s e with
  | silent hjobs _ hproc _ _ _ =>
    intro k; rw [hjobs, hproc]; exact h k
  | spawn key filename buffer _ hjobs _ _ hproc _ _ =>
    intro k
    rw [hjobs, hproc, h k]
    constructor
    · rintro ⟨i, x, hx, hp⟩
      exact ⟨i, x, get_append_old _ _ _ _ hx, hp⟩
    · rintro ⟨i, x, hx, hp⟩
      rcases get_append_cases _ _ _ _ hx with hold | ⟨_, hnew⟩
      · exact ⟨i, x, hold, hp⟩
      · subst hnew
        simp [PC.succeeded] at hp
  | acquire j job hget hpc _ hjobs _ hproc _ _ _ =>
    exact processedInv_move s _ j job _ h hget hjobs hproc (by simp [hpc, PC.succeeded])
  | setProcessing j job hget hpc hjobs _ hproc _ _ _ =>
    exact processedInv_move s _ j job _ h hget hjobs hproc (by simp [hpc, PC.succeeded])
  | convert j job pc hget hpc hnext hjobs _ hproc _ _ _ =>
    exact processedInv_move s _ j job _ h hget hjobs hproc
      (by rcases hnext with hn | hn <;> simp [hn, hpc, PC.succeeded])
  | markFailed j job hget hpc hjobs _ hproc _ _ _ =>
    exact processedInv_move s _ j job _ h hget hjobs hproc (by simp [hpc, PC.succeeded])
  | markDone j job hget hpc hjobs _ hproc _ _ _ =>
    intro k
    rw [hjobs, hproc]
    by_cases hk : k = job.key
    · subst hk
      simp only [setKey, if_true, true_iff]
      exact ⟨j, _, get_set_self _ j job _ hget, rfl, rfl⟩
    · simp only [setKey, if_neg hk]
      rw [h k]
      exact (exists_set_iff (fun x => x.key = k ∧ x.pc.succeeded = true) _ j job _ hget
        (by
          have hne : job.key ≠ k := fun h2 => hk h2.symm
          simp [hne])).symm
  | release j job ok hget hpc _ hjobs _ hproc _ _ _ =>
    exact processedInv_move s _ j job _ h hget hjobs hproc
      (by cases ok <;> simp [hpc, PC.succeeded])

theorem processedInv_run (cfg : Int) (disk : String → Option Bytes) (es : List Event) :
    ProcessedInv (run (init cfg disk) es) := by
  apply run_invariant ProcessedInv processedInv_step es
  unfold ProcessedInv
  intro k
  simp [init]

/-- C1, counterexample: a second identical upload arriving while the first is
still "queued", or still "processing", dispatches a second job for the same
fingerprint, and both jobs then run the conversion to completion. -/
theorem second_submission_dispatches :
    (run (init 3 (fun _ => none)) [Event.upload pngKey "a.gif" [0]]).statusMap pngKey =
      some "queued" ∧
    (run (init 3 (fun _ => none)) [Event.upload pngKey "a.gif" [0]]).jobs =
      [⟨pngKey, [0], PC.waiting⟩] ∧
    (run (init 3 (fun _ => none))
      [Event.upload pngKey "a.gif" [0], Event.upload pngKey "a.gif" [0]]).jobs =
      [⟨pngKey, [0], PC.waiting⟩, ⟨pngKey, [0], PC.waiting⟩] ∧
    (run (init 3 (fun _ => none))
      [Event.upload pngKey "a.gif" [0], Event.acquire 0, Event.setProcessing 0]).statusMap pngKey =
      some "processing" ∧
    (run (init 3 (fun _ => none))
      [Event.upload pngKey "a.gif" [0], Event.acquire 0, Event.setProcessing 0,
       Event.upload pngKey "a.gif" [0]]).jobs =
      [⟨pngKey, [0], PC.processing⟩, ⟨pngKey, [0], PC.waiting⟩] ∧
    (run (init 3 (fun _ => none))
      [Event.upload pngKey "a.gif" [0], Event.acquire 0, Event.setProcessing 0,
       Event.upload pngKey "a.gif" [0], Event.acquire 1, Event.setProcessing 1,
       Event.writeOk 0 [2], Event.writeOk 1 [2], Event.markDone 0, Event.markDone 1,
       Event.release 0, Event.release 1]).jobs =
      [⟨pngKey, [0], PC.exited true⟩, ⟨pngKey, [0], PC.exited true⟩] := by
  refine ⟨by decide, by decide, by decide, by decide, by decide, by decide⟩

/-- C1, amended: in every execution, once a job for a fingerprint has completed
successfully (its `markDone` has run), an upload of that fingerprint dispatches
no job and is answered "already processed", and a socket submission of it
dispatches no job as long as the stored artifact is readable. -/
theorem completed_not_redispatched (cfg : Int) (disk : String → Option Bytes) (es : List Event)
    (key : ProcessKey) (filename : String) (buffer : Bytes)
    (hdone : ∃ job ∈ (run (init cfg disk) es).jobs, job.key = key ∧ job.pc.succeeded = true) :
    (step (run (init cfg disk) es) (Event.upload key filename buffer)).jobs =
      (run (init cfg disk) es).jobs ∧
    (step (run (init cfg disk) es) (Event.upload key filename buffer)).replies =
      (run (init cfg disk) es).replies ++ [Reply.alreadyProcessed key] ∧
    (∀ buf, (run (init cfg disk) es).files (outputPathForKey key) = some buf →
      (wsSubmit (run (init cfg disk) es) key filename buffer).jobs = (run (init cfg disk) es).jobs ∧
      (wsSubmit (run (init cfg disk) es) key filename buffer).replies =
        (run (init cfg disk) es).replies ++ [Reply.wsDone key buf]) := by
  have hp : (run (init cfg disk) es).processed key = true := by
    obtain ⟨job, hmem, hk, hs⟩ := hdone
    obtain ⟨i, hi⟩ := List.mem_iff_getElem?.mp hmem
    exact (processedInv_run cfg disk es key).mpr ⟨i, job, hi, hk, hs⟩
  refine ⟨by simp [step, uploadSubmit, hp], by simp [step, uploadSubmit, hp], ?_⟩
  intro buf hf
  rw [wsSubmit_answered _ key filename buffer buf hp hf]
  exact ⟨rfl, rfl⟩

/-- C1, amended statement at a concrete execution: after the job for `pngKey`
has completed, a further upload dispatches nothing. -/
theorem completed_not_redispatched_witness :
    (step (run (init 3 (fun _ => none)) (evictionTrace.take 6))
      (Event.upload pngKey "a.gif" [0])).jobs = [⟨pngKey, [0], PC.exited true⟩] :=
  ((completed_not_redispatched 3 (fun _ => none) (evictionTrace.take 6) pngKey "a.gif" [0]
    ⟨⟨pngKey, [0], PC.exited true⟩, by decide, by decide, by decide⟩).1).trans (by decide)

theorem markFailed_step (s : State) (j : Nat) (job : Job)
    (hget : s.jobs[j]? = some job) (hpc : job.pc = PC.failing) :
    step s (Event.markFailed j) =
      { s with
        statusMap := setKey s.statusMap job.key (some "failed")
        jobs := s.jobs.set j { job with pc := PC.returning false } } := by
  simp [step, jobMarkFailed, markFailed, setPC, hget, hpc]

/-- C6, amended: in every reachable state, when a job for fingerprint fp ends
in failure (it is about to call `markFailed` after an output directory, codec
or write error), its `markFailed` leaves `statusMap[fp] = "failed"` and does
not touch `processed`; when no job for fp has completed successfully,
`processed[fp]` is therefore not set, and whenever it is not set the next
identical submission on either adapter is registered as new work: status
"queued" and one job dispatched. -/
theorem failure_not_cached (cfg : Int) (disk : String → Option Bytes) (es : List Event)
    (j : Nat) (job : Job) (filename : String) (buffer : Bytes)
    (hget : (run (init cfg disk) es).jobs[j]? = some job) (hpc : job.pc = PC.failing) :
    (step (run (init cfg disk) es) (Event.markFailed j)).statusMap job.key = some "failed" ∧
    (step (run (init cfg disk) es) (Event.markFailed j)).processed =
      (run (init cfg disk) es).processed ∧
    ((∀ other ∈ (run (init cfg disk) es).jobs, other.key = job.key → other.pc.succeeded = false) →
      (step (run (init cfg disk) es) (Event.markFailed j)).processed job.key = false) ∧
    ((step (run (init cfg disk) es) (Event.markFailed j)).processed job.key = false →
      (step (step (run (init cfg disk) es) (Event.markFailed j))
        (Event.upload job.key filename buffer)).statusMap job.key = some "queued" ∧
      (step (step (run (init cfg disk) es) (Event.markFailed j))
        (Event.upload job.key filename buffer)).jobs =
        (step (run (init cfg disk) es) (Event.markFailed j)).jobs ++
          [⟨job.key, buffer, PC.waiting⟩] ∧
      (wsSubmit (step (run (init cfg disk) es) (Event.markFailed j))
        job.key filename buffer).statusMap job.key = some "queued" ∧
      (wsSubmit (step (run (init cfg disk) es) (Event.markFailed j))
        job.key filename buffer).jobs =
        (step (run (init cfg disk) es) (Event.markFailed j)).jobs ++
          [⟨job.key, buffer, PC.waiting⟩]) := by
  rw [markFailed_step (run (init cfg disk) es) j job hget hpc]
  refine ⟨by simp [setKey], rfl, ?_, ?_⟩
  · intro hnone
    show (run (init cfg disk) es).processed job.key = false
    by_contra hne
    have hp : (run (init cfg disk) es).processed job.key = true := by simpa using hne
    obtain ⟨i, other, hi, hk, hs⟩ := (processedInv_run cfg disk es job.key).mp hp
    have := hnone other (List.getElem?_mem hi) hk
    rw [this] at hs
    exact absurd hs (by decide)
  · intro hp
    have hp2 : (run (init cfg disk) es).processed job.key = false := hp
    refine ⟨?_, ?_, ?_, ?_⟩
    · simp only [step, uploadSubmit]
      rw [if_neg (by simp [hp2])]
      simp [register, setKey]
    · simp only [step, uploadSubmit]
      rw [if_neg (by simp [hp2])]
      simp [register]
    · rw [wsSubmit_registered _ _ _ _ (Or.inl hp)]
      simp [setKey]
    · rw [wsSubmit_registered _ _ _ _ (Or.inl hp)]

/-- C6, amended statement at a concrete execution: the only job for `pngKey`
fails on a codec error; afterwards the status is "failed", `processed` is not
set and a new upload is queued. -/
theorem failure_not_cached_witness :
    (step (run (init 3 (fun _ => none)) (retryTrace.take 4))
      (Event.markFailed 0)).statusMap pngKey = some "failed" ∧
    (step (run (init 3 (fun _ => none)) (retryTrace.take 4))
      (Event.markFailed 0)).processed pngKey = false ∧
    (step (step (run (init 3 (fun _ => none)) (retryTrace.take 4)) (Event.markFailed 0))
      (Event.upload pngKey "a.gif" [0])).statusMap pngKey = some "queued" :=
  ⟨(failure_not_cached 3 (fun _ => none) (retryTrace.take 4) 0 ⟨pngKey, [0], PC.failing⟩
      "a.gif" [0] (by decide) rfl).1,
   (failure_not_cached 3 (fun _ => none) (retryTrace.take 4) 0 ⟨pngKey, [0], PC.failing⟩
      "a.gif" [0] (by decide) rfl).2.2.1 (by decide),
   ((failure_not_cached 3 (fun _ => none) (retryTrace.take 4) 0 ⟨pngKey, [0], PC.failing⟩
      "a.gif" [0] (by decide) rfl).2.2.2 (by decide)).1⟩

/-- C6, counterexample: two uploads of `pngKey` are both dispatched; the first
job completes, the second fails on a write error. After that failure
`statusMap[pngKey]` is "failed" but `processed[pngKey]` is set, and the next
identical upload is answered "already processed" without a job being
dispatched. -/
theorem failure_after_success_is_cached :
    (run (init 3 (fun _ => none))
      [Event.upload pngKey "a.gif" [0], Event.upload pngKey "a.gif" [0],
       Event.acquire 0, Event.setProcessing 0, Event.writeOk 0 [2], Event.markDone 0,
       Event.release 0, Event.acquire 1, Event.setProcessing 1, Event.writeFail 1 none,
       Event.markFailed 1, Event.release 1]).statusMap pngKey = some "failed" ∧
    (run (init 3 (fun _ => none))
      [Event.upload pngKey "a.gif" [0], Event.upload pngKey "a.gif" [0],
       Event.acquire 0, Event.setProcessing 0, Event.writeOk 0 [2], Event.markDone 0,
       Event.release 0, Event.acquire 1, Event.setProcessing 1, Event.writeFail 1 none,
       Event.markFailed 1, Event.release 1]).processed pngKey = true ∧
    (run (init 3 (fun _ => none))
      [Event.upload pngKey "a.gif" [0], Event.upload pngKey "a.gif" [0],
       Event.acquire 0, Event.setProcessing 0, Event.writeOk 0 [2], Event.markDone 0,
       Event.release 0, Event.acquire 1, Event.setProcessing 1, Event.writeFail 1 none,
       Event.markFailed 1, Event.release 1, Event.upload pngKey "a.gif" [0]]).jobs =
      [⟨pngKey, [0], PC.exited true⟩, ⟨pngKey, [0], PC.exited false⟩] ∧
    (run (init 3 (fun _ => none))
      [Event.upload pngKey "a.gif" [0], Event.upload pngKey "a.gif" [0],
       Event.acquire 0, Event.setProcessing 0, Event.writeOk 0 [2], Event.markDone 0,
       Event.release 0, Event.acquire 1, Event.setProcessing 1, Event.writeFail 1 none,
       Event.markFailed 1, Event.release 1, Event.upload pngKey "a.gif" [0]]).replies =
      [Reply.accepted pngKey, Reply.accepted pngKey, Reply.alreadyProcessed pngKey] := by
  refine ⟨by decide, by decide, by decide, by decide⟩

/-! ## Status lifecycle (C5) -/

theorem idle_iff (s : State) (k : ProcessKey) :
    idle s k = true ↔
      ∀ (i : Nat) (a : Job), s.jobs[i]? = some a → a.key = k → a.pc.unfinished = false := by
  unfold idle
  rw [List.all_eq_true]
  constructor
  · intro h i a hi hk
    have := h a (List.getElem?_mem hi)
    simpa [hk] using this
  · intro h a hmem
    obtain ⟨i, hi⟩ := List.mem_iff_getElem?.mp hmem
    by_cases hk : a.key = k
    · simp [h i a hi hk]
    · simp [hk]

theorem pc_early_unfinished (p : PC) (h : p = PC.waiting ∨ p = PC.acquired) :
    p.unfinished = true := by
  rcases h with h | h <;> subst h <;> rfl

theorem pc_late_unfinished (p : PC) (h : p = PC.processing ∨ p = PC.failing ∨ p = PC.written) :
    p.unfinished = true := by
  rcases h with h | h | h <;> subst h <;> rfl

theorem lifecycle_frame (k : ProcessKey) (s t : State) (h : LifecycleInv k s)
    (hjobs : ∀ (i : Nat) (a : Job), a.key = k → (t.jobs[i]? = some a ↔ s.jobs[i]? = some a))
    (hstatus : t.statusMap k = s.statusMap k)
    (hproc : s.processed k = true → t.processed k = true) : LifecycleInv k t where
  unique := fun i1 i2 a b ha hb hka hkb hua hub =>
    h.unique i1 i2 a b ((hjobs i1 a hka).mp ha) ((hjobs i2 b hkb).mp hb) hka hkb hua hub
  queued := fun i a ha hk hpc => by
    rw [hstatus]; exact h.queued i a ((hjobs i a hk).mp ha) hk hpc
  processing := fun i a ha hk hpc => by
    rw [hstatus]; exact h.processing i a ((hjobs i a hk).mp ha) hk hpc
  terminal := fun hall => by
    rw [hstatus]
    exact h.terminal (fun i a ha hk => hall i a ((hjobs i a hk).mpr ha) hk)
  doneProcessed := fun hd => by
    rw [hstatus] at hd
    exact hproc (h.doneProcessed hd)

theorem jobs_set_other_key (k : ProcessKey) (l : List Job) (j : Nat) (job : Job) (pc : PC)
    (hget : l[j]? = some job) (hk : job.key ≠ k) (i : Nat) (a : Job)
    (ha : a.key = k) : (l.set j { job with pc := pc })[i]? = some a ↔ l[i]? = some a := by
  constructor
  · intro h
    rcases get_set_cases l j i _ a h with ⟨_, hab⟩ | ⟨_, hold⟩
    · subst hab; exact absurd ha hk
    · exact hold
  · intro h
    by_cases hij : i = j
    · subst hij
      rw [hget] at h
      cases h
      exact absurd ha hk
    · rw [get_set_other l j i _ hij]; exact h

theorem jobs_append_other_key (k : ProcessKey) (l : List Job) (x : Job) (hx : x.key ≠ k)
    (i : Nat) (a : Job) (ha : a.key = k) : (l ++ [x])[i]? = some a ↔ l[i]? = some a := by
  constructor
  · intro h
    rcases get_append_cases l x a i h with hold | ⟨_, hnew⟩
    · exact hold
    · subst hnew; exact absurd ha hx
  · exact get_append_old l x a i

theorem lifecycle_move_active (k : ProcessKey) (s t : State) (j : Nat) (job : Job) (pc : PC)
    (h : LifecycleInv k s) (hget : s.jobs[j]? = some job) (hk : job.key = k)
    (hun : job.pc.unfinished = true)
    (hjobs : t.jobs = s.jobs.set j { job with pc := pc })
    (c1 : pc = PC.waiting ∨ pc = PC.acquired → t.statusMap k = some "queued")
    (c2 : pc = PC.processing ∨ pc = PC.failing ∨ pc = PC.written →
      t.statusMap k = some "processing")
    (c3 : pc.unfinished = false →
      t.statusMap k = none ∨ t.statusMap k = some "failed" ∨ t.statusMap k = some "done")
    (c4 : t.statusMap k = some "done" → t.processed k = true) : LifecycleInv k t := by
  have others : ∀ (i : Nat) (a : Job), i ≠ j → s.jobs[i]? = some a → a.key = k →
      a.pc.unfinished = false := by
    intro i a hij ha hka
    by_contra hne
    have hu : a.pc.unfinished = true := by simpa using hne
    exact hij (h.unique i j a job ha hget hka hk hu hun)
  have at_j : ∀ (i : Nat) (a : Job), t.jobs[i]? = some a → a.key = k → a.pc.unfinished = true →
      i = j ∧ a.pc = pc := by
    intro i a ha hka hu
    rw [hjobs] at ha
    rcases get_set_cases _ j i _ a ha with ⟨hij, hab⟩ | ⟨hij, hold⟩
    · exact ⟨hij, by rw [hab]⟩
    · rw [others i a hij hold hka] at hu
      exact absurd hu (by decide)
  exact {
    unique := fun i1 i2 a b ha hb hka hkb hua hub => by
      rw [(at_j i1 a ha hka hua).1, (at_j i2 b hb hkb hub).1]
    queued := fun i a ha hka hpc => by
      have := (at_j i a ha hka (pc_early_unfinished _ hpc)).2
      rw [this] at hpc
      exact c1 hpc
    processing := fun i a ha hka hpc => by
      have := (at_j i a ha hka (pc_late_unfinished _ hpc)).2
      rw [this] at hpc
      exact c2 hpc
    terminal := fun hall => by
      apply c3
      have hnew : t.jobs[j]? = some { job with pc := pc } := by
        rw [hjobs]; exact get_set_self _ j job _ hget
      exact hall j _ hnew hk
    doneProcessed := c4 }

theorem lifecycle_move_finished (k : ProcessKey) (s t : State) (j : Nat) (job : Job) (pc : PC)
    (h : LifecycleInv k s) (hget : s.jobs[j]? = some job)
    (hfin : job.pc.unfinished = false) (hpc : pc.unfinished = false)
    (hjobs : t.jobs = s.jobs.set j { job with pc := pc })
    (hstatus : t.statusMap = s.statusMap) (hproc : t.processed = s.processed) :
    LifecycleInv k t := by
  have old_of_new : ∀ (i : Nat) (a : Job), t.jobs[i]? = some a → a.pc.unfinished = true →
      s.jobs[i]? = some a := by
    intro i a ha hu
    rw [hjobs] at ha
    rcases get_set_cases _ j i _ a ha with ⟨_, hab⟩ | ⟨_, hold⟩
    · rw [hab] at hu
      simp only at hu
      rw [hpc] at hu
      exact absurd hu (by decide)
    · exact hold
  exact {
    unique := fun i1 i2 a b ha hb hka hkb hua hub =>
      h.unique i1 i2 a b (old_of_new i1 a ha hua) (old_of_new i2 b hb hub) hka hkb hua hub
    queued := fun i a ha hka hp => by
      rw [hstatus]
      exact h.queued i a (old_of_new i a ha (pc_early_unfinished _ hp)) hka hp
    processing := fun i a ha hka hp => by
      rw [hstatus]
      exact h.processing i a (old_of_new i a ha (pc_late_unfinished _ hp)) hka hp
    terminal := fun hall => by
      rw [hstatus]
      apply h.terminal
      intro i a ha hka
      by_cases hij : i = j
      · subst hij
        rw [hget] at ha
        cases ha
        exact hfin
      · apply hall i a _ hka
        rw [hjobs, get_set_other _ j i _ hij]
        exact ha
    doneProcessed := fun hd => by
      rw [hstatus] at hd
      rw [hproc]
      exact h.doneProcessed hd }

theorem lifecycle_spawn (k : ProcessKey) (s t : State) (buffer : Bytes)
    (hidle : idle s k = true)
    (hjobs : t.jobs = s.jobs ++ [⟨k, buffer, PC.waiting⟩])
    (hstatus : t.statusMap k = some "queued") : LifecycleInv k t := by
  rw [idle_iff] at hidle
  have at_end : ∀ (i : Nat) (a : Job), t.jobs[i]? = some a → a.key = k → a.pc.unfinished = true →
      i = s.jobs.length ∧ a.pc = PC.waiting := by
    intro i a ha hka hu
    rw [hjobs] at ha
    rcases get_append_cases _ _ a i ha with hold | ⟨hi, hnew⟩
    · rw [hidle i a hold hka] at hu
      exact absurd hu (by decide)
    · exact ⟨hi, by rw [hnew]⟩
  exact {
    unique := fun i1 i2 a b ha hb hka hkb hua hub => by
      rw [(at_end i1 a ha hka hua).1, (at_end i2 b hb hkb hub).1]
    queued := fun _ _ _ _ _ => hstatus
    processing := fun i a ha hka hp => by
      have := (at_end i a ha hka (pc_late_unfinished _ hp)).2
      rw [this] at hp
      rcases hp with hp | hp | hp <;> exact absurd hp (by decide)
    terminal := fun hall => by
      have hnew : t.jobs[s.jobs.length]? = some ⟨k, buffer, PC.waiting⟩ := by
        rw [hjobs]; exact List.getElem?_concat_length _ _
      have hw : PC.waiting.unfinished = false := hall _ _ hnew rfl
      exact absurd hw (by decide)
    doneProcessed := fun hd => by
      rw [hstatus] at hd
      exact absurd hd (by decide) }


theorem setKey_same {α : Type} (m : ProcessKey → α) (k : ProcessKey) (v : α) :
    setKey m k v k = v := by
  simp [setKey]

theorem setKey_other {α : Type} (m : ProcessKey → α) (k k2 : ProcessKey) (v : α) (h : k ≠ k2) :
    setKey m k v k2 = m k2 := by
  have h2 : k2 ≠ k := fun e => h e.symm
  simp [setKey, h2]

theorem allowedChange_same (e : Event) (a b : Option String) (h : b = a) :
    allowedChange e a b = true := by
  simp [allowedChange, h]

theorem lifecycle_step (k : ProcessKey) (s : State) (e : Event) (h : LifecycleInv k s)
    (hsp : registers s k e = true → idle s k = true) :
    LifecycleInv k (step s e) ∧
      allowedChange e (s.statusMap k) ((step s e).statusMap k) = true := by
  cases step_effect s e with
  | silent hjobs hstatus hproc _ _ _ =>
    refine ⟨lifecycle_frame k s _ h (fun i a _ => by rw [hjobs]) (by rw [hstatus])
      (by rw [hproc]; exact id), allowedChange_same _ _ _ (by rw [hstatus])⟩
  | spawn key filename buffer hreg hjobs hstatus _ hproc _ _ =>
    by_cases hk : key = k
    · subst hk
      have hidle := hsp hreg
      have hnew : (step s e).statusMap key = some "queued" := by
        rw [hstatus]; exact setKey_same _ _ _
      refine ⟨lifecycle_spawn key s _ buffer hidle hjobs hnew, ?_⟩
      rw [hnew]
      rcases h.terminal ((idle_iff s key).mp hidle) with ho | ho | ho
      · simp [allowedChange, ho]
      · simp [allowedChange, ho]
      · have hp := h.doneProcessed ho
        rw [ho]
        cases e with
        | upload key2 f2 b2 =>
          simp only [registers, Bool.and_eq_true, decide_eq_true_eq, Bool.not_eq_true'] at hreg
          rw [hreg.1, hp] at hreg
          exact absurd hreg.2 (by decide)
        | wsRegister r => simp [allowedChange, Event.isWsRegister]
        | wsCheck _ _ _ => simp [registers] at hreg
        | wsRead _ => simp [registers] at hreg
        | acquire _ => simp [registers] at hreg
        | setProcessing _ => simp [registers] at hreg
        | jobError _ => simp [registers] at hreg
        | writeOk _ _ => simp [registers] at hreg
        | writeFail _ _ => simp [registers] at hreg
        | markFailed _ => simp [registers] at hreg
        | markDone _ => simp [registers] at hreg
        | release _ => simp [registers] at hreg
        | download _ => simp [registers] at hreg
        | sweep => simp [registers] at hreg
    · have hst : (step s e).statusMap k = s.statusMap k := by
        rw [hstatus]; exact setKey_other _ _ _ _ hk
      refine ⟨lifecycle_frame k s _ h
        (fun i a ha => by rw [hjobs]; exact jobs_append_other_key k _ _ hk i a ha) hst
        (by rw [hproc]; exact id), allowedChange_same _ _ _ hst⟩
  | acquire j job hget hpc _ hjobs hstatus hproc _ _ _ =>
    refine ⟨?_, allowedChange_same _ _ _ (by rw [hstatus])⟩
    by_cases hk : job.key = k
    · refine lifecycle_move_active k s _ j job _ h hget hk (by rw [hpc]; rfl) hjobs ?_ ?_ ?_ ?_
      · intro _; rw [hstatus]; exact h.queued j job hget hk (Or.inl hpc)
      · intro hc; rcases hc with hc | hc | hc <;> exact absurd hc (by decide)
      · intro hc; exact absurd hc (by decide)
      · intro hd; rw [hstatus] at hd; rw [hproc]; exact h.doneProcessed hd
    · exact lifecycle_frame k s _ h
        (fun i a ha => by rw [hjobs]; exact jobs_set_other_key k _ j job _ hget hk i a ha)
        (by rw [hstatus]) (by rw [hproc]; exact id)
  | setProcessing j job hget hpc hjobs hstatus hproc _ _ _ =>
    by_cases hk : job.key = k
    · have hnew : (step s e).statusMap k = some "processing" := by
        rw [hstatus, ← hk]; exact setKey_same _ _ _
      refine ⟨lifecycle_move_active k s _ j job _ h hget hk (by rw [hpc]; rfl) hjobs ?_ ?_ ?_ ?_, ?_⟩
      · intro hc; rcases hc with hc | hc <;> exact absurd hc (by decide)
      · intro _; exact hnew
      · intro hc; exact absurd hc (by decide)
      · intro hd; rw [hnew] at hd; exact absurd hd (by decide)
      · rw [hnew, h.queued j job hget hk (Or.inr hpc)]
        simp [allowedChange]
    · have hst : (step s e).statusMap k = s.statusMap k := by
        rw [hstatus]; exact setKey_other _ _ _ _ hk
      exact ⟨lifecycle_frame k s _ h
        (fun i a ha => by rw [hjobs]; exact jobs_set_other_key k _ j job _ hget hk i a ha)
        hst (by rw [hproc]; exact id), allowedChange_same _ _ _ hst⟩
  | convert j job pc hget hpc hnext hjobs hstatus hproc _ _ _ =>
    refine ⟨?_, allowedChange_same _ _ _ (by rw [hstatus])⟩
    by_cases hk : job.key = k
    · refine lifecycle_move_active k s _ j job _ h hget hk (by rw [hpc]; rfl) hjobs ?_ ?_ ?_ ?_
      · intro hc
        rcases hnext with hn | hn <;> subst hn <;> rcases hc with hc | hc <;>
          exact absurd hc (by decide)
      · intro _; rw [hstatus]; exact h.processing j job hget hk (Or.inl hpc)
      · intro hc
        rcases hnext with hn | hn <;> subst hn <;> exact absurd hc (by decide)
      · intro hd; rw [hstatus] at hd; rw [hproc]; exact h.doneProcessed hd
    · exact lifecycle_frame k s _ h
        (fun i a ha => by rw [hjobs]; exact jobs_set_other_key k _ j job _ hget hk i a ha)
        (by rw [hstatus]) (by rw [hproc]; exact id)
  | markFailed j job hget hpc hjobs hstatus hproc _ _ _ =>
    by_cases hk : job.key = k
    · have hnew : (step s e).statusMap k = some "failed" := by
        rw [hstatus, ← hk]; exact setKey_same _ _ _
      refine ⟨lifecycle_move_active k s _ j job _ h hget hk (by rw [hpc]; rfl) hjobs ?_ ?_ ?_ ?_, ?_⟩
      · intro hc; rcases hc with hc | hc <;> exact absurd hc (by decide)
      · intro hc; rcases hc with hc | hc | hc <;> exact absurd hc (by decide)
      · intro _; exact Or.inr (Or.inl hnew)
      · intro hd; rw [hnew] at hd; exact absurd hd (by decide)
      · rw [hnew, h.processing j job hget hk (Or.inr (Or.inl hpc))]
        simp [allowedChange]
    · have hst : (step s e).statusMap k = s.statusMap k := by
        rw [hstatus]; exact setKey_other _ _ _ _ hk
      exact ⟨lifecycle_frame k s _ h
        (fun i a ha => by rw [hjobs]; exact jobs_set_other_key k _ j job _ hget hk i a ha)
        hst (by rw [hproc]; exact id), allowedChange_same _ _ _ hst⟩
  | markDone j job hget hpc hjobs hstatus hproc _ _ _ =>
    by_cases hk : job.key = k
    · have hnew : (step s e).statusMap k = some "done" := by
        rw [hstatus, ← hk]; exact setKey_same _ _ _
      refine ⟨lifecycle_move_active k s _ j job _ h hget hk (by rw [hpc]; rfl) hjobs ?_ ?_ ?_ ?_, ?_⟩
      · intro hc; rcases hc with hc | hc <;> exact absurd hc (by decide)
      · intro hc; rcases hc with hc | hc | hc <;> exact absurd hc (by decide)
      · intro _; exact Or.inr (Or.inr hnew)
      · intro _; rw [hproc, ← hk]; exact setKey_same _ _ _
      · rw [hnew, h.processing j job hget hk (Or.inr (Or.inr hpc))]
        simp [allowedChange]
    · have hst : (step s e).statusMap k = s.statusMap k := by
        rw [hstatus]; exact setKey_other _ _ _ _ hk
      exact ⟨lifecycle_frame k s _ h
        (fun i a ha => by rw [hjobs]; exact jobs_set_other_key k _ j job _ hget hk i a ha)
        hst (by rw [hproc, setKey_other _ _ _ _ hk]; exact id), allowedChange_same _ _ _ hst⟩
  | release j job ok hget hpc _ hjobs hstatus hproc _ _ _ =>
    exact ⟨lifecycle_move_finished k s _ j job (PC.exited ok) h hget (by rw [hpc]; rfl) rfl hjobs
        hstatus hproc,
      allowedChange_same _ _ _ (by rw [hstatus])⟩

theorem lifecycle_init (k : ProcessKey) (cfg : Int) (disk : String → Option Bytes) :
    LifecycleInv k (init cfg disk) where
  unique := fun i1 _ a _ ha _ _ _ _ _ => by simp [init] at ha
  queued := fun i a ha _ _ => by simp [init] at ha
  processing := fun i a ha _ _ => by simp [init] at ha
  terminal := fun _ => Or.inl rfl
  doneProcessed := fun hd => by simp [init] at hd

theorem lifecycle_prefix (k : ProcessKey) : ∀ (pre : List Event) (s : State) (e : Event)
    (post : List Event), LifecycleInv k s → spaced k s (pre ++ e :: post) = true →
    LifecycleInv k (run s pre) ∧
      (registers (run s pre) k e = true → idle (run s pre) k = true) := by
  intro pre
  induction pre with
  | nil =>
    intro s e post h hsp
    refine ⟨h, fun hreg => ?_⟩
    have hreg2 : registers s k e = true := hreg
    show idle s k = true
    simp only [List.nil_append, spaced, Bool.and_eq_true, Bool.or_eq_true,
      Bool.not_eq_true'] at hsp
    rcases hsp.1 with h1 | h1
    · rw [h1] at hreg2; exact absurd hreg2 (by decide)
    · exact h1
  | cons e0 pre ih =>
    intro s e post h hsp
    simp only [List.cons_append, spaced, Bool.and_eq_true, Bool.or_eq_true,
      Bool.not_eq_true'] at hsp
    have hstep := (lifecycle_step k s e0 h (fun hreg => by
      rcases hsp.1 with h1 | h1
      · rw [h1] at hreg; exact absurd hreg (by decide)
      · exact h1)).1
    exact ih (step s e0) e post hstep hsp.2

/-- C5, amended: in every execution in which each registration of a
fingerprint fp (by an upload, or by the second section of the socket handler)
happens while no earlier job for fp is unfinished, every change of
`statusMap[fp]` is one of absent->queued, failed->queued, queued->processing,
processing->done, processing->failed, or done->queued by a registration of the
socket adapter; no change skips "processing" or goes back from "processing",
and "done" changes only through such a socket registration. -/
theorem lifecycle_order (cfg : Int) (disk : String → Option Bytes) (es : List Event)
    (k : ProcessKey) (hsp : spaced k (init cfg disk) es = true)
    (pre : List Event) (e : Event) (post : List Event) (hes : es = pre ++ e :: post) :
    allowedChange e ((run (init cfg disk) pre).statusMap k)
      ((step (run (init cfg disk) pre) e).statusMap k) = true := by
  subst hes
  obtain ⟨hinv, hreg⟩ := lifecycle_prefix k pre (init cfg disk) e post (lifecycle_init k cfg disk) hsp
  exact (lifecycle_step k _ e hinv hreg).2

/-- C5, amended statement at a concrete execution: in `retryTrace` the second
upload comes after the first job has failed, so the registrations are spaced,
and its status change, failed->queued, is an admitted one. -/
theorem lifecycle_order_witness :
    spaced pngKey (init 3 (fun _ => none)) retryTrace = true ∧
    (run (init 3 (fun _ => none)) (retryTrace.take 6)).statusMap pngKey = some "failed" ∧
    (step (run (init 3 (fun _ => none)) (retryTrace.take 6))
      (Event.upload pngKey "a.gif" [0])).statusMap pngKey = some "queued" ∧
    allowedChange (Event.upload pngKey "a.gif" [0])
      ((run (init 3 (fun _ => none)) (retryTrace.take 6)).statusMap pngKey)
      ((step (run (init 3 (fun _ => none)) (retryTrace.take 6))
        (Event.upload pngKey "a.gif" [0])).statusMap pngKey) = true :=
  ⟨by decide, by decide, by decide,
   lifecycle_order 3 (fun _ => none) retryTrace pngKey (by decide) (retryTrace.take 6)
     (Event.upload pngKey "a.gif" [0]) (retryTrace.drop 7) rfl⟩

/-- C5, counterexample: a second upload of `pngKey` while the first job is
processing changes the status from "processing" back to "queued"; and when two
jobs for `pngKey` have been dispatched, the second one changes the status from
"done" to "processing" after the first has completed. -/
theorem status_goes_backwards :
    (run (init 3 (fun _ => none))
      [Event.upload pngKey "a.gif" [0], Event.acquire 0, Event.setProcessing 0]).statusMap pngKey =
      some "processing" ∧
    (run (init 3 (fun _ => none))
      [Event.upload pngKey "a.gif" [0], Event.acquire 0, Event.setProcessing 0,
       Event.upload pngKey "a.gif" [0]]).statusMap pngKey = some "queued" ∧
    (run (init 3 (fun _ => none))
      [Event.upload pngKey "a.gif" [0], Event.upload pngKey "a.gif" [0], Event.acquire 0,
       Event.setProcessing 0, Event.writeOk 0 [2], Event.markDone 0]).statusMap pngKey =
      some "done" ∧
    (run (init 3 (fun _ => none))
      [Event.upload pngKey "a.gif" [0], Event.upload pngKey "a.gif" [0], Event.acquire 0,
       Event.setProcessing 0, Event.writeOk 0 [2], Event.markDone 0, Event.acquire 1,
       Event.setProcessing 1]).statusMap pngKey = some "processing" ∧
    allowedChange (Event.upload pngKey "a.gif" [0]) (some "processing") (some "queued") = false ∧
    allowedChange (Event.setProcessing 1) (some "done") (some "processing") = false := by
  refine ⟨by decide, by decide, by decide, by decide, by decide, by decide⟩

end TinyImage
